import Mathlib

/-!
# Verification of the COLMAP binary loader (`COLMAPLoader.ts`)

A shallow embedding of the decoding core of the repository's
`COLMAPLoader`: the camera-model registry, the three binary decoders
(`readCamerasBinary`, `readImagesBinary`, `readPoints3DBinary`), the
derived camera-pose computation (`getCameraPoses`) and the intrinsics
extraction of `createCameraMesh`.

Modelling choices (all forced by the JavaScript semantics of the source):

* A byte buffer (`ArrayBuffer` + `DataView`) is a `List Nat` of byte
  values; every `DataView.getXxx(offset, true)` call bounds-checks and
  throws a `RangeError` on an out-of-range read, which we model as
  `Except`-failure with `DErr.truncated`.
* `getFloat64` values are kept as their raw 64-bit little-endian bit
  patterns (a `Nat < 2^64`): the decoders never do arithmetic on floats,
  they only move them from the buffer into records, so the bit pattern
  is an exact model and lets round-trip statements be bit-precise.
* `getInt32`/`getBigInt64` produce signed values, modelled as `Int` via
  two's-complement reinterpretation of the little-endian value.
* `Number()` applied to a decoded `BigInt` is exact for magnitudes up to
  `2 ^ 53`; the well-formedness predicates below restrict records to
  that safe range so the `Int`/`Nat`-valued model is exact.
* The JS object used as the id-keyed output mapping is modelled as an
  association list with replace-or-append insertion (`insertKV`): a
  repeated key overwrites the stored value and adds no new key, exactly
  as JS property assignment does, and `Object.keys(m).length` is the
  number of stored keys, i.e. `List.length` of the association list.
* JS strings built with `String.fromCharCode` from bytes are kept as the
  `List Nat` of their byte values (`fromCharCode` is injective on
  0..255, so equality of names coincides with equality of byte lists).
-/

/-- Decode/processing errors of the loader.  In the source they surface as
`RangeError` (a `DataView` read past the buffer end), a `TypeError` from the
failed `CAMERA_MODEL_IDS[...]` lookup, the explicit
`Error('Number of cameras does not match')`, and the explicit
`Error('Camera model not supported')` of `createCameraMesh`. -/
inductive DErr where
  | truncated
  | unknownModel
  | countMismatch
  | unsupportedModel
deriving DecidableEq, Repr

/-- A raw byte buffer: list of byte values. -/
abbrev Bytes := List Nat

/-- Value of a little-endian byte list. -/
def leVal (l : Bytes) : Nat := l.foldr (fun b acc => b + 256 * acc) 0

/-- Little-endian encoding of `v` on `w` bytes (the model of how the test
buffers of the byte-layout contract are laid out). -/
def natLE : Nat → Nat → Bytes
  | 0, _ => []
  | w + 1, v => v % 256 :: natLE w (v / 256)

/-- Bounds-checked little-endian read of `w` bytes at `off`
(the model of a `DataView.getXxx(offset, true)` call: any read past the
buffer end throws, i.e. yields `DErr.truncated`). -/
def readLE (b : Bytes) (off w : Nat) : Except DErr Nat :=
  if off + w ≤ b.length then .ok (leVal ((b.drop off).take w)) else .error .truncated

/-- Two's-complement reinterpretation of a `w`-bit unsigned value. -/
def toSigned (w : Nat) (v : Nat) : Int :=
  if v < 2 ^ (w - 1) then (v : Int) else (v : Int) - 2 ^ w

/-- `DataView.getUint8`. -/
def readU8 (b : Bytes) (off : Nat) : Except DErr Nat := readLE b off 1

/-- `DataView.getInt32(offset, true)`. -/
def readI32 (b : Bytes) (off : Nat) : Except DErr Int :=
  (readLE b off 4).map (toSigned 32)

/-- `DataView.getBigInt64(offset, true)` (converted with `Number(...)`). -/
def readI64 (b : Bytes) (off : Nat) : Except DErr Int :=
  (readLE b off 8).map (toSigned 64)

/-- `DataView.getBigUint64(offset, true)` (converted with `Number(...)`). -/
def readU64 (b : Bytes) (off : Nat) : Except DErr Nat := readLE b off 8

/-- `DataView.getFloat64(offset, true)`, kept as the raw 64-bit pattern. -/
def readF64 (b : Bytes) (off : Nat) : Except DErr Nat := readLE b off 8

/-! ## The camera model registry (`CAMERA_MODELS`, `CAMERA_MODEL_IDS`,
`CAMERA_MODEL_NAMES`) -/

structure CameraModel where
  model_id : Int
  model_name : String
  num_params : Nat
deriving DecidableEq, Repr

def CAMERA_MODELS : List CameraModel :=
  [ ⟨0, "SIMPLE_PINHOLE", 3⟩,
    ⟨1, "PINHOLE", 4⟩,
    ⟨2, "SIMPLE_RADIAL", 4⟩,
    ⟨3, "RADIAL", 5⟩,
    ⟨4, "OPENCV", 8⟩,
    ⟨5, "OPENCV_FISHEYE", 8⟩,
    ⟨6, "FULL_OPENCV", 12⟩,
    ⟨7, "FOV", 5⟩,
    ⟨8, "SIMPLE_RADIAL_FISHEYE", 4⟩,
    ⟨9, "RADIAL_FISHEYE", 5⟩,
    ⟨10, "THIN_PRISM_FISHEYE", 12⟩ ]

/-- Lookup in `CAMERA_MODEL_IDS` (the id-keyed dictionary built from
`CAMERA_MODELS`); `none` models the `undefined` result of an unknown id. -/
def lookupModelId (mid : Int) : Option CameraModel :=
  CAMERA_MODELS.find? (fun cm => cm.model_id = mid)

/-- Lookup in `CAMERA_MODEL_NAMES` (the name-keyed dictionary). -/
def lookupModelName (nm : String) : Option CameraModel :=
  CAMERA_MODELS.find? (fun cm => cm.model_name = nm)

/-! ## Decoded record types (`CameraBin`, `ImageBin`, `PointBin`) -/

/-- A record of `cameras.bin` (`CameraBin` in the source).  `params` holds
the raw float64 bit patterns. -/
structure CameraBin where
  id : Int
  model : String
  width : Int
  height : Int
  params : List Nat
deriving DecidableEq, Repr

/-- A record of `images.bin` (`ImageBin` in the source).  `name` is the
byte list of the decoded string, `qvec`/`tvec`/`xys` hold raw float64 bit
patterns. -/
structure ImageBin where
  id : Int
  camera_id : Int
  name : List Nat
  qvec : Nat × Nat × Nat × Nat
  tvec : Nat × Nat × Nat
  xys : List (Nat × Nat)
  point3D_ids : List Int
deriving DecidableEq, Repr

/-- A record of `points3D.bin` (`PointBin` in the source). -/
structure PointBin where
  id : Nat
  xyz : Nat × Nat × Nat
  rgb : Nat × Nat × Nat
  error : Nat
  imageIds : List Int
  point2DIdxs : List Int
deriving DecidableEq, Repr

/-! ## The id-keyed output mapping (a JS object) -/

/-- Assignment `m[k] = v` on a JS object: overwrite the value if the key is
present (the key keeps its position, no new key appears), append otherwise. -/
def insertKV {κ α : Type} [DecidableEq κ] (m : List (κ × α)) (k : κ) (v : α) :
    List (κ × α) :=
  if (m.map Prod.fst).contains k then
    m.map (fun p => if p.1 = k then (k, v) else p)
  else m ++ [(k, v)]

/-- Property read `m[k]` on a JS object. -/
def lookupKV {κ α : Type} [DecidableEq κ] (m : List (κ × α)) (k : κ) : Option α :=
  (m.find? (fun p => p.1 = k)).map Prod.snd

/-- The mapping assembled by inserting each record of a list in order,
keyed by `key`. -/
def mapOfList {κ α : Type} [DecidableEq κ] (key : α → κ) (recs : List α) :
    List (κ × α) :=
  recs.foldl (fun m r => insertKV m (key r) r) []

/-! ## `readCamerasBinary` -/

/-- Read the `num_params` trailing float64 parameters of a camera record
(the inner `for (let j = 0; j < numParams; j++)` loop). -/
def readF64List (b : Bytes) (off : Nat) : Nat → Except DErr (List Nat)
  | 0 => .ok []
  | n + 1 => do
    let p ← readF64 b off
    let rest ← readF64List b (off + 8) n
    .ok (p :: rest)

/-- Decode one camera record at `off`: the fixed 24-byte header
(`getInt32 camera_id`, `getInt32 model_id`, `getBigInt64 width`,
`getBigInt64 height`), the `CAMERA_MODEL_IDS` lookup (a `TypeError`, here
`DErr.unknownModel`, when the id is unknown), then `num_params` float64
values.  Returns the record and the offset one past it. -/
def readCameraRecord (b : Bytes) (off : Nat) : Except DErr (CameraBin × Nat) := do
  let cid ← readI32 b off
  let mid ← readI32 b (off + 4)
  let w ← readI64 b (off + 8)
  let h ← readI64 b (off + 16)
  match lookupModelId mid with
  | none => .error .unknownModel
  | some cm => do
    let ps ← readF64List b (off + 24) cm.num_params
    .ok (⟨cid, cm.model_name, w, h, ps⟩, off + 24 + 8 * cm.num_params)

/-- The `for (let i = 0; i < numCameras; i++)` loop of `readCamerasBinary`:
decode `n` records starting at `off`, inserting each into the mapping. -/
def readCamerasLoop (b : Bytes) :
    Nat → Nat → List (Int × CameraBin) → Except DErr (List (Int × CameraBin) × Nat)
  | off, 0, acc => .ok (acc, off)
  | off, n + 1, acc => do
    let (c, off') ← readCameraRecord b off
    readCamerasLoop b off' n (insertKV acc c.id c)

/-- `readCamerasBinary`: 8-byte `num_cameras` header, the record loop, then
the `Object.keys(cameras).length !== Number(numCameras)` check that throws
`Error('Number of cameras does not match')` (`DErr.countMismatch`). -/
def readCamerasBinary (b : Bytes) : Except DErr (List (Int × CameraBin)) := do
  let n ← readU64 b 0
  let (m, _) ← readCamerasLoop b 8 n []
  if m.length = n then .ok m else .error .countMismatch

/-! ## `readImagesBinary` -/

/-- The byte-by-byte name scan over the bytes remaining after the current
offset.  Returns the name bytes before the first zero byte together with
the number of bytes consumed (terminator included), or `none` when the
bytes run out before a zero byte is found (in the source the
`dataView.getUint8` one past the end throws). -/
def scanName : Bytes → Option (List Nat × Nat)
  | [] => none
  | c :: rest =>
    if c = 0 then some ([], 1)
    else
      match scanName rest with
      | none => none
      | some (nm, used) => some (c :: nm, used + 1)

/-- The `while (currentChar !== 0)` name read of `readImagesBinary` at
offset `off`: yields the name bytes and the offset one past the zero
terminator, or `DErr.truncated` when the buffer is exhausted first. -/
def readName (b : Bytes) (off : Nat) : Except DErr (List Nat × Nat) :=
  match scanName (b.drop off) with
  | none => .error .truncated
  | some (nm, used) => .ok (nm, off + used)

/-- The `for (let k = 0; k < numPoints2D; k++)` loop: each iteration reads
two float64 (x, y) and one `getBigInt64` `point3D_id` (which may be -1) and
pushes onto `xys` and `point3DIds`. -/
def readPoints2DList (b : Bytes) :
    Nat → Nat → Except DErr (List (Nat × Nat) × List Int × Nat)
  | off, 0 => .ok ([], [], off)
  | off, n + 1 => do
    let x ← readF64 b off
    let y ← readF64 b (off + 8)
    let pid ← readI64 b (off + 16)
    let (xys, pids, off') ← readPoints2DList b (off + 24) n
    .ok ((x, y) :: xys, pid :: pids, off')

/-- Decode one image record at `off`: `getInt32 image_id`, four float64
qvec (w,x,y,z), three float64 tvec, `getInt32 camera_id`, the
null-terminated name, the 8-byte `num_points2D` count, then the 2D-point
loop. -/
def readImageRecord (b : Bytes) (off : Nat) : Except DErr (ImageBin × Nat) := do
  let iid ← readI32 b off
  let qw ← readF64 b (off + 4)
  let qx ← readF64 b (off + 12)
  let qy ← readF64 b (off + 20)
  let qz ← readF64 b (off + 28)
  let tx ← readF64 b (off + 36)
  let ty ← readF64 b (off + 44)
  let tz ← readF64 b (off + 52)
  let cid ← readI32 b (off + 60)
  let (nm, off1) ← readName b (off + 64)
  let np ← readU64 b off1
  let (xys, p3ids, off2) ← readPoints2DList b (off1 + 8) np
  .ok (⟨iid, cid, nm, (qw, qx, qy, qz), (tx, ty, tz), xys, p3ids⟩, off2)

/-- The `for (let i = 0; i < numRegImages; i++)` loop of
`readImagesBinary`. -/
def readImagesLoop (b : Bytes) :
    Nat → Nat → List (Int × ImageBin) → Except DErr (List (Int × ImageBin) × Nat)
  | off, 0, acc => .ok (acc, off)
  | off, n + 1, acc => do
    let (img, off') ← readImageRecord b off
    readImagesLoop b off' n (insertKV acc img.id img)

/-- `readImagesBinary`: 8-byte `num_reg_images` header then the record
loop.  Unlike `readCamerasBinary`, there is no count check at the end. -/
def readImagesBinary (b : Bytes) : Except DErr (List (Int × ImageBin)) := do
  let n ← readU64 b 0
  let (m, _) ← readImagesLoop b 8 n []
  .ok m

/-! ## `readPoints3DBinary` -/

/-- The `for (let j = 0; j < trackLength; j++)` loop: each iteration reads
`getInt32 image_id` and `getInt32 point2D_idx` and pushes onto `imageIds`
and `point2DIdxs`. -/
def readTrack (b : Bytes) :
    Nat → Nat → Except DErr (List Int × List Int × Nat)
  | off, 0 => .ok ([], [], off)
  | off, n + 1 => do
    let iid ← readI32 b off
    let idx ← readI32 b (off + 4)
    let (ids, idxs, off') ← readTrack b (off + 8) n
    .ok (iid :: ids, idx :: idxs, off')

/-- Decode one 3D-point record at `off`: `getBigUint64 point3D_id`, three
float64 xyz, three `getUint8` rgb, one float64 `error`, the 8-byte
`track_length`, then the track loop. -/
def readPoint3DRecord (b : Bytes) (off : Nat) : Except DErr (PointBin × Nat) := do
  let pid ← readU64 b off
  let x ← readF64 b (off + 8)
  let y ← readF64 b (off + 16)
  let z ← readF64 b (off + 24)
  let r ← readU8 b (off + 32)
  let g ← readU8 b (off + 33)
  let bb ← readU8 b (off + 34)
  let er ← readF64 b (off + 35)
  let tl ← readU64 b (off + 43)
  let (ids, idxs, off') ← readTrack b (off + 51) tl
  .ok (⟨pid, (x, y, z), (r, g, bb), er, ids, idxs⟩, off')

/-- The `for (let i = 0; i < numPoints; i++)` loop of
`readPoints3DBinary`. -/
def readPointsLoop (b : Bytes) :
    Nat → Nat → List (Nat × PointBin) → Except DErr (List (Nat × PointBin) × Nat)
  | off, 0, acc => .ok (acc, off)
  | off, n + 1, acc => do
    let (p, off') ← readPoint3DRecord b off
    readPointsLoop b off' n (insertKV acc p.id p)

/-- `readPoints3DBinary`: 8-byte `num_points` header then the record loop;
no count check. -/
def readPoints3DBinary (b : Bytes) : Except DErr (List (Nat × PointBin)) := do
  let n ← readU64 b 0
  let (m, _) ← readPointsLoop b 8 n []
  .ok m

/-! ## Encoders for the byte-layout contracts of spec sections 4.2-4.4

These are the little-endian layouts the decoders consume, written out as
encoders so that round-trip and truncation statements can quantify over
record lists. -/

/-- 8-byte unsigned little-endian. -/
def encU64 (v : Nat) : Bytes := natLE 8 v

/-- Single byte. -/
def encU8 (v : Nat) : Bytes := natLE 1 v

/-- 4-byte signed little-endian (two's complement). -/
def encI32 (v : Int) : Bytes := natLE 4 (v % (2 ^ 32 : Int)).toNat

/-- 8-byte signed little-endian (two's complement). -/
def encI64 (v : Int) : Bytes := natLE 8 (v % (2 ^ 64 : Int)).toNat

/-- 8-byte float64, from its raw bit pattern. -/
def encF64 (p : Nat) : Bytes := natLE 8 p

/-- A camera record laid out from raw header fields: 24-byte header
followed by the given parameter bytes. -/
def encodeCameraRaw (cid mid w h : Int) (paramBytes : Bytes) : Bytes :=
  encI32 cid ++ encI32 mid ++ encI64 w ++ encI64 h ++ paramBytes

/-- The layout of one camera record of section 4.2. -/
def encodeCameraRecord (c : CameraBin) : Bytes :=
  match lookupModelName c.model with
  | some cm => encodeCameraRaw c.id cm.model_id c.width c.height
      (c.params.map encF64).flatten
  | none => []

/-- A whole `cameras.bin` buffer: 8-byte count then the records. -/
def encodeCameras (recs : List CameraBin) : Bytes :=
  encU64 recs.length ++ (recs.map encodeCameraRecord).flatten

/-- The layout of one image record of section 4.3. -/
def encodeImageRecord (img : ImageBin) : Bytes :=
  encI32 img.id ++
  encF64 img.qvec.1 ++ encF64 img.qvec.2.1 ++ encF64 img.qvec.2.2.1 ++
  encF64 img.qvec.2.2.2 ++
  encF64 img.tvec.1 ++ encF64 img.tvec.2.1 ++ encF64 img.tvec.2.2 ++
  encI32 img.camera_id ++
  img.name ++ [0] ++
  encU64 img.xys.length ++
  ((img.xys.zip img.point3D_ids).map
    (fun q => encF64 q.1.1 ++ encF64 q.1.2 ++ encI64 q.2)).flatten

/-- A whole `images.bin` buffer. -/
def encodeImages (recs : List ImageBin) : Bytes :=
  encU64 recs.length ++ (recs.map encodeImageRecord).flatten

/-- The layout of one 3D-point record of section 4.4. -/
def encodePointRecord (p : PointBin) : Bytes :=
  encU64 p.id ++
  encF64 p.xyz.1 ++ encF64 p.xyz.2.1 ++ encF64 p.xyz.2.2 ++
  encU8 p.rgb.1 ++ encU8 p.rgb.2.1 ++ encU8 p.rgb.2.2 ++
  encF64 p.error ++
  encU64 p.imageIds.length ++
  ((p.imageIds.zip p.point2DIdxs).map
    (fun q => encI32 q.1 ++ encI32 q.2)).flatten

/-- A whole `points3D.bin` buffer. -/
def encodePoints (recs : List PointBin) : Bytes :=
  encU64 recs.length ++ (recs.map encodePointRecord).flatten

/-! ## Well-formed records

These predicates spell out the data-model constraints of spec section 3
for a record that the byte layout can represent at all: integer fields in
the range of their wire type (and within the `Number()`-exact range
`±2 ^ 53` for 64-bit fields), float fields given as 64-bit patterns,
`params.length` matching the registry, names free of the zero terminator
byte, and the parallel-array invariants. -/

def inI32 (v : Int) : Prop := -(2 ^ 31) ≤ v ∧ v < 2 ^ 31

def inSafe64 (v : Int) : Prop := -(2 ^ 53) ≤ v ∧ v < 2 ^ 53

def WFCamera (c : CameraBin) : Prop :=
  inI32 c.id ∧ inSafe64 c.width ∧ inSafe64 c.height ∧
  (∀ p ∈ c.params, p < 2 ^ 64) ∧
  ∃ cm ∈ CAMERA_MODELS, c.model = cm.model_name ∧ c.params.length = cm.num_params

instance : DecidablePred WFCamera := fun c => by
  unfold WFCamera inI32 inSafe64; infer_instance

def WFImage (img : ImageBin) : Prop :=
  inI32 img.id ∧ inI32 img.camera_id ∧
  (∀ c ∈ img.name, 0 < c ∧ c < 256) ∧
  img.qvec.1 < 2 ^ 64 ∧ img.qvec.2.1 < 2 ^ 64 ∧ img.qvec.2.2.1 < 2 ^ 64 ∧
  img.qvec.2.2.2 < 2 ^ 64 ∧
  img.tvec.1 < 2 ^ 64 ∧ img.tvec.2.1 < 2 ^ 64 ∧ img.tvec.2.2 < 2 ^ 64 ∧
  (∀ q ∈ img.xys, q.1 < 2 ^ 64 ∧ q.2 < 2 ^ 64) ∧
  (∀ i ∈ img.point3D_ids, inSafe64 i) ∧
  img.xys.length = img.point3D_ids.length ∧
  img.xys.length < 2 ^ 64

instance : DecidablePred WFImage := fun img => by
  unfold WFImage inI32 inSafe64; infer_instance

def WFPoint (p : PointBin) : Prop :=
  p.id < 2 ^ 53 ∧
  p.xyz.1 < 2 ^ 64 ∧ p.xyz.2.1 < 2 ^ 64 ∧ p.xyz.2.2 < 2 ^ 64 ∧
  p.rgb.1 < 256 ∧ p.rgb.2.1 < 256 ∧ p.rgb.2.2 < 256 ∧
  p.error < 2 ^ 64 ∧
  (∀ i ∈ p.imageIds, inI32 i) ∧ (∀ i ∈ p.point2DIdxs, inI32 i) ∧
  p.imageIds.length = p.point2DIdxs.length ∧
  p.imageIds.length < 2 ^ 64

instance : DecidablePred WFPoint := fun p => by
  unfold WFPoint inI32; infer_instance

/-! ## `getCameraPoses` (derived pose computation, spec section 4.5)

The pose computation operates on the already-decoded JS numbers; it is
embedded over `ℚ` (the decoders do no arithmetic, the pose helper does
only field arithmetic, so exact rationals model the real-number content
of the computation; the final `Quaternion().setFromRotationMatrix` of the
source converts the orientation matrix `RMatrix` to an equivalent
quaternion representation, so the orientation is carried here as that
matrix). -/

/-- The qvec/tvec of one decoded image, as numbers. -/
structure ImageQ where
  id : Int
  qvec : ℚ × ℚ × ℚ × ℚ
  tvec : ℚ × ℚ × ℚ

abbrev Mat4 := Matrix (Fin 4) (Fin 4) ℚ

abbrev Mat3 := Matrix (Fin 3) (Fin 3) ℚ

abbrev Vec3 := Fin 3 → ℚ

/-- `new Matrix4().makeRotationFromQuaternion(new Quaternion(x, y, z, w))`
with `(w, x, y, z)` taken from qvec exactly as the source passes them
(`qvec[1], qvec[2], qvec[3], qvec[0]`): the three.js `compose` formula with
zero position and unit scale. -/
def rotM4 (q : ℚ × ℚ × ℚ × ℚ) : Mat4 :=
  let w := q.1
  let x := q.2.1
  let y := q.2.2.1
  let z := q.2.2.2
  Matrix.of
    ![![1 - (y * (y + y) + z * (z + z)), x * (y + y) - w * (z + z),
        x * (z + z) + w * (y + y), 0],
      ![x * (y + y) + w * (z + z), 1 - (x * (x + x) + z * (z + z)),
        y * (z + z) - w * (x + x), 0],
      ![x * (z + z) - w * (y + y), y * (z + z) + w * (x + x),
        1 - (x * (x + x) + y * (y + y)), 0],
      ![0, 0, 0, 1]]

/-- `Vector3.applyMatrix4`: treats the vector as a point with `w = 1` and
divides by the resulting homogeneous coordinate. -/
def applyMatrix4 (v : Vec3) (m : Mat4) : Vec3 :=
  let x := v 0
  let y := v 1
  let z := v 2
  let w := 1 / (m 3 0 * x + m 3 1 * y + m 3 2 * z + m 3 3)
  ![(m 0 0 * x + m 0 1 * y + m 0 2 * z + m 0 3) * w,
    (m 1 0 * x + m 1 1 * y + m 1 2 * z + m 1 3) * w,
    (m 2 0 * x + m 2 1 * y + m 2 2 * z + m 2 3) * w]

/-- `Vector3.negate`. -/
def negateV (v : Vec3) : Vec3 := fun i => -(v i)

/-- The rotation block (upper-left 3×3) of a 4×4 matrix. -/
def upper3 (m : Mat4) : Mat3 :=
  Matrix.of
    ![![m 0 0, m 0 1, m 0 2],
      ![m 1 0, m 1 1, m 1 2],
      ![m 2 0, m 2 1, m 2 2]]

/-- The per-image body of `getCameraPoses`: `R` from the quaternion,
`RMatrix = R.transpose()`, `t.applyMatrix4(RMatrix)`, `t.negate()`; the
returned orientation is the rotation carried by `RMatrix`. -/
def poseOf (img : ImageQ) : Vec3 × Mat3 :=
  let R := rotM4 img.qvec
  let RMatrix := R.transpose
  let t : Vec3 := ![img.tvec.1, img.tvec.2.1, img.tvec.2.2]
  (negateV (applyMatrix4 t RMatrix), upper3 RMatrix)

/-- `getCameraPoses`: map over the images, keeping each image id with its
derived world-space pose.  The input list is left untouched (the model is
pure, as is the source: it only reads `image.qvec`/`image.tvec`). -/
def getCameraPoses (imgs : List ImageQ) : List (Int × (Vec3 × Mat3)) :=
  imgs.map (fun img => (img.id, poseOf img))

/-- The world→camera rotation matrix that spec section 4.5 prescribes to
build from the `(w,x,y,z)` quaternion (the COLMAP `qvec2rotmat` formula).
This is a second, spec-following definition, written independently of the
three.js embedding above so the two can be compared. -/
def rotFromQuatSpec (q : ℚ × ℚ × ℚ × ℚ) : Mat3 :=
  let w := q.1
  let x := q.2.1
  let y := q.2.2.1
  let z := q.2.2.2
  Matrix.of
    ![![1 - 2 * y ^ 2 - 2 * z ^ 2, 2 * x * y - 2 * w * z, 2 * x * z + 2 * w * y],
      ![2 * x * y + 2 * w * z, 1 - 2 * x ^ 2 - 2 * z ^ 2, 2 * y * z - 2 * w * x],
      ![2 * x * z - 2 * w * y, 2 * y * z + 2 * w * x, 1 - 2 * x ^ 2 - 2 * y ^ 2]]

/-! ## `createCameraMesh` (intrinsics gate)

Only the error gate and the intrinsics selection are modelled: the
subsequent pyramid-geometry construction is pure three.js mesh assembly,
out of the modelled decoding core (spec section 6 keeps only its input
contract in scope).  `List.get?` models the JS indexing
`camera.params[i]`, which yields `undefined` (here `none`) past the end
rather than raising. -/

def simpleFocalModels : List String := ["SIMPLE_PINHOLE", "SIMPLE_RADIAL", "RADIAL"]

def splitFocalModels : List String :=
  ["PINHOLE", "OPENCV", "OPENCV_FISHEYE", "FULL_OPENCV"]

/-- The `fx, fy, cx, cy` computation of `createCameraMesh`, including the
`Error('Camera model not supported')` gate (`DErr.unsupportedModel`). -/
def createCameraMesh (camera : CameraBin) :
    Except DErr (Option Nat × Option Nat × Option Nat × Option Nat) :=
  if camera.model ∈ simpleFocalModels then
    .ok (camera.params.get? 0, camera.params.get? 0,
         camera.params.get? 1, camera.params.get? 2)
  else if camera.model ∈ splitFocalModels then
    .ok (camera.params.get? 0, camera.params.get? 1,
         camera.params.get? 2, camera.params.get? 3)
  else .error .unsupportedModel

/-! ## Little-endian encode/decode lemmas -/

theorem natLE_length (w v : Nat) : (natLE w v).length = w := by
  induction w generalizing v with
  | zero => rfl
  | succ k ih => simp [natLE, ih]

theorem leVal_natLE (w v : Nat) (h : v < 2 ^ (8 * w)) : leVal (natLE w v) = v := by
  induction w generalizing v with
  | zero => simp [natLE, leVal]; omega
  | succ k ih =>
    have hdiv : v / 256 < 2 ^ (8 * k) := by
      rw [Nat.div_lt_iff_lt_mul (by norm_num : 0 < 256)]
      have : (2 : Nat) ^ (8 * (k + 1)) = 2 ^ (8 * k) * 256 := by ring
      omega
    simp only [natLE, leVal, List.foldr_cons]
    have := ih (v / 256) hdiv
    simp only [leVal] at this
    rw [this]
    omega

/-- Reading `w` bytes where the encoder laid down a `w`-byte chunk returns
that chunk's little-endian value. -/
theorem readLE_at {b : Bytes} {off w : Nat} (pre mid suf : Bytes)
    (hb : b = pre ++ (mid ++ suf)) (hoff : off = pre.length)
    (hw : mid.length = w) :
    readLE b off w = .ok (leVal mid) := by
  subst hb hoff hw
  unfold readLE
  rw [if_pos (by simp only [List.length_append]; omega)]
  rw [List.drop_left, List.take_left]

theorem readU64_at {b : Bytes} {off : Nat} (pre suf : Bytes) (v : Nat)
    (hb : b = pre ++ (encU64 v ++ suf)) (hoff : off = pre.length)
    (hv : v < 2 ^ 64) :
    readU64 b off = .ok v := by
  rw [readU64, readLE_at pre (encU64 v) suf hb hoff (natLE_length 8 v)]
  rw [encU64, leVal_natLE 8 v (by norm_num at hv ⊢; omega)]

theorem readF64_at {b : Bytes} {off : Nat} (pre suf : Bytes) (p : Nat)
    (hb : b = pre ++ (encF64 p ++ suf)) (hoff : off = pre.length)
    (hp : p < 2 ^ 64) :
    readF64 b off = .ok p := by
  rw [readF64, readLE_at pre (encF64 p) suf hb hoff (natLE_length 8 p)]
  rw [encF64, leVal_natLE 8 p (by norm_num at hp ⊢; omega)]

theorem readU8_at {b : Bytes} {off : Nat} (pre suf : Bytes) (v : Nat)
    (hb : b = pre ++ (encU8 v ++ suf)) (hoff : off = pre.length)
    (hv : v < 256) :
    readU8 b off = .ok v := by
  rw [readU8, readLE_at pre (encU8 v) suf hb hoff (natLE_length 1 v)]
  rw [encU8, leVal_natLE 1 v (by norm_num at hv ⊢; omega)]

theorem readI32_at {b : Bytes} {off : Nat} (pre suf : Bytes) (v : Int)
    (hb : b = pre ++ (encI32 v ++ suf)) (hoff : off = pre.length)
    (hv : inI32 v) :
    readI32 b off = .ok v := by
  have h0 : (0 : Int) ≤ v % 2 ^ 32 := Int.emod_nonneg v (by norm_num)
  have h1 : v % 2 ^ 32 < 2 ^ 32 := Int.emod_lt_of_pos v (by norm_num)
  rw [readI32, readLE_at pre (encI32 v) suf hb hoff (natLE_length 4 _)]
  rw [encI32, leVal_natLE 4 _ (by norm_num at h1 ⊢; omega)]
  simp only [Except.map, toSigned]
  obtain ⟨hlo, hhi⟩ := hv
  congr 1
  have h2 : (((v % 2 ^ 32).toNat : Int)) = v % 2 ^ 32 := Int.toNat_of_nonneg h0
  split <;> rename_i hcase
  · have : ((v % 2 ^ 32).toNat : Int) < 2 ^ 31 := by exact_mod_cast hcase
    omega
  · have : ¬ ((v % 2 ^ 32).toNat : Int) < 2 ^ 31 := by exact_mod_cast hcase
    push_cast
    omega

theorem readI64_at {b : Bytes} {off : Nat} (pre suf : Bytes) (v : Int)
    (hb : b = pre ++ (encI64 v ++ suf)) (hoff : off = pre.length)
    (hv : -(2 ^ 63) ≤ v ∧ v < 2 ^ 63) :
    readI64 b off = .ok v := by
  have h0 : (0 : Int) ≤ v % 2 ^ 64 := Int.emod_nonneg v (by norm_num)
  have h1 : v % 2 ^ 64 < 2 ^ 64 := Int.emod_lt_of_pos v (by norm_num)
  rw [readI64, readLE_at pre (encI64 v) suf hb hoff (natLE_length 8 _)]
  rw [encI64, leVal_natLE 8 _ (by norm_num at h1 ⊢; omega)]
  simp only [Except.map, toSigned]
  obtain ⟨hlo, hhi⟩ := hv
  congr 1
  have h2 : (((v % 2 ^ 64).toNat : Int)) = v % 2 ^ 64 := Int.toNat_of_nonneg h0
  split <;> rename_i hcase
  · have : ((v % 2 ^ 64).toNat : Int) < 2 ^ 63 := by exact_mod_cast hcase
    omega
  · have : ¬ ((v % 2 ^ 64).toNat : Int) < 2 ^ 63 := by exact_mod_cast hcase
    push_cast
    omega

/-! ## Reduction helpers for the `Except` decoding pipeline -/

instance {ε α : Type} [DecidableEq ε] [DecidableEq α] : DecidableEq (Except ε α) :=
  fun x y =>
    match x, y with
    | .ok a, .ok b => decidable_of_iff (a = b) (by simp)
    | .error e, .error f => decidable_of_iff (e = f) (by simp)
    | .ok _, .error _ => isFalse (by simp)
    | .error _, .ok _ => isFalse (by simp)

@[simp] theorem okBind {α β : Type} (v : α) (f : α → Except DErr β) :
    (Except.ok v >>= f : Except DErr β) = f v := rfl

@[simp] theorem errBind {α β : Type} (e : DErr) (f : α → Except DErr β) :
    (Except.error e >>= f : Except DErr β) = .error e := rfl

/-- The registry round-trips: every table entry is found again under its
own name and its own id (names and ids are pairwise distinct, so nothing
ever "defaults"). -/
theorem lookup_roundtrip :
    ∀ cm ∈ CAMERA_MODELS,
      lookupModelName cm.model_name = some cm ∧ lookupModelId cm.model_id = some cm := by
  decide

theorem encF64_length (p : Nat) : (encF64 p).length = 8 := natLE_length 8 p

theorem encU8_length (v : Nat) : (encU8 v).length = 1 := natLE_length 1 v

theorem encI32_length (v : Int) : (encI32 v).length = 4 := natLE_length 4 _

theorem encI64_length (v : Int) : (encI64 v).length = 8 := natLE_length 8 _

theorem encU64_length (v : Nat) : (encU64 v).length = 8 := natLE_length 8 v

theorem flatten_encF64_length (ps : List Nat) :
    ((ps.map encF64).flatten).length = 8 * ps.length := by
  induction ps with
  | nil => rfl
  | cons p rest ih => simp [encF64_length, ih]; ring

/-! ## Round-trip of one camera record -/

theorem readF64List_at {b : Bytes} {off : Nat} (pre suf : Bytes) (ps : List Nat)
    (hb : b = pre ++ ((ps.map encF64).flatten ++ suf)) (hoff : off = pre.length)
    (hps : ∀ p ∈ ps, p < 2 ^ 64) :
    readF64List b off ps.length = .ok ps := by
  induction ps generalizing pre off with
  | nil => simp [readF64List]
  | cons p rest ih =>
    have h1 : readF64 b off = .ok p :=
      readF64_at pre ((rest.map encF64).flatten ++ suf) p
        (by simp [hb, List.append_assoc]) hoff (hps p (by simp))
    have h2 : readF64List b (off + 8) rest.length = .ok rest :=
      ih (pre ++ encF64 p) (by simp [hb, List.append_assoc])
        (by simp [hoff, encF64_length])
        (fun q hq => hps q (by simp [hq]))
    simp [readF64List, h1, h2]

theorem encodeCameraRecord_length (c : CameraBin) (cm : CameraModel)
    (hcm : lookupModelName c.model = some cm) :
    (encodeCameraRecord c).length = 24 + 8 * c.params.length := by
  simp only [encodeCameraRecord, hcm, encodeCameraRaw, List.length_append,
    encI32_length, encI64_length, flatten_encF64_length]

instance (v : Int) : Decidable (inI32 v) := by unfold inI32; infer_instance

instance (v : Int) : Decidable (inSafe64 v) := by unfold inSafe64; infer_instance

/-- Every registry id fits in an `int32`. -/
theorem model_id_inI32 : ∀ cm ∈ CAMERA_MODELS, inI32 cm.model_id := by
  decide

theorem readCameraRecord_at {b : Bytes} {off : Nat} (pre suf : Bytes) (c : CameraBin)
    (hb : b = pre ++ (encodeCameraRecord c ++ suf)) (hoff : off = pre.length)
    (hWF : WFCamera c) :
    readCameraRecord b off = .ok (c, off + (encodeCameraRecord c).length) := by
  obtain ⟨hid, hw, hh, hps, cm, hmem, hname, hlen⟩ := hWF
  have hlookupN : lookupModelName c.model = some cm := by
    rw [hname]; exact (lookup_roundtrip cm hmem).1
  have hlookupI : lookupModelId cm.model_id = some cm := (lookup_roundtrip cm hmem).2
  have henc : encodeCameraRecord c =
      encI32 c.id ++ encI32 cm.model_id ++ encI64 c.width ++ encI64 c.height ++
        (c.params.map encF64).flatten := by
    simp [encodeCameraRecord, hlookupN, encodeCameraRaw]
  have h1 : readI32 b off = .ok c.id :=
    readI32_at pre
      (encI32 cm.model_id ++ (encI64 c.width ++ (encI64 c.height ++
        ((c.params.map encF64).flatten ++ suf)))) c.id
      (by simp [hb, henc, List.append_assoc]) hoff hid
  have h2 : readI32 b (off + 4) = .ok cm.model_id :=
    readI32_at (pre ++ encI32 c.id)
      (encI64 c.width ++ (encI64 c.height ++ ((c.params.map encF64).flatten ++ suf)))
      cm.model_id
      (by simp [hb, henc, List.append_assoc])
      (by simp [hoff, encI32_length])
      (model_id_inI32 cm hmem)
  have h3 : readI64 b (off + 8) = .ok c.width :=
    readI64_at (pre ++ encI32 c.id ++ encI32 cm.model_id)
      (encI64 c.height ++ ((c.params.map encF64).flatten ++ suf)) c.width
      (by simp [hb, henc, List.append_assoc])
      (by simp [hoff, encI32_length])
      (by obtain ⟨h1, h2⟩ := hw; constructor <;> [exact le_trans (by norm_num) h1;
           exact lt_of_lt_of_le h2 (by norm_num)])
  have h4 : readI64 b (off + 16) = .ok c.height :=
    readI64_at (pre ++ encI32 c.id ++ encI32 cm.model_id ++ encI64 c.width)
      ((c.params.map encF64).flatten ++ suf) c.height
      (by simp [hb, henc, List.append_assoc])
      (by simp [hoff, encI32_length, encI64_length])
      (by obtain ⟨h1, h2⟩ := hh; constructor <;> [exact le_trans (by norm_num) h1;
           exact lt_of_lt_of_le h2 (by norm_num)])
  have h5 : readF64List b (off + 24) c.params.length = .ok c.params :=
    readF64List_at
      (pre ++ encI32 c.id ++ encI32 cm.model_id ++ encI64 c.width ++ encI64 c.height)
      suf c.params
      (by simp [hb, henc, List.append_assoc])
      (by simp [hoff, encI32_length, encI64_length])
      hps
  rw [encodeCameraRecord_length c cm hlookupN]
  simp only [readCameraRecord, h1, h2, h3, h4, okBind, hlookupI, ← hlen, h5]
  have hc : (⟨c.id, cm.model_name, c.width, c.height, c.params⟩ : CameraBin) = c := by
    rw [← hname]
  rw [hc]
  congr 1
  congr 1
  omega

/-! ## Round-trip of the camera loop and of `readCamerasBinary` -/

theorem readCamerasLoop_at {b : Bytes} (recs : List CameraBin)
    (pre suf : Bytes) (off : Nat) (acc : List (Int × CameraBin))
    (hb : b = pre ++ ((recs.map encodeCameraRecord).flatten ++ suf))
    (hoff : off = pre.length)
    (hWF : ∀ c ∈ recs, WFCamera c) :
    readCamerasLoop b off recs.length acc =
      .ok (recs.foldl (fun m c => insertKV m c.id c) acc,
           off + ((recs.map encodeCameraRecord).flatten).length) := by
  induction recs generalizing pre off acc with
  | nil => simp [readCamerasLoop]
  | cons c rest ih =>
    have h1 : readCameraRecord b off = .ok (c, off + (encodeCameraRecord c).length) :=
      readCameraRecord_at pre ((rest.map encodeCameraRecord).flatten ++ suf) c
        (by simp [hb, List.append_assoc]) hoff (hWF c (by simp))
    have h2 := ih (pre ++ encodeCameraRecord c) (off + (encodeCameraRecord c).length)
      (insertKV acc c.id c)
      (by simp [hb, List.append_assoc])
      (by simp [hoff])
      (fun x hx => hWF x (by simp [hx]))
    simp only [List.length_cons, readCamerasLoop, h1, okBind, h2, List.map_cons,
      List.flatten_cons, List.length_append, List.foldl_cons]
    congr 2
    omega

theorem readCamerasBinary_encode (recs : List CameraBin)
    (hWF : ∀ c ∈ recs, WFCamera c) (hn : recs.length < 2 ^ 64) :
    readCamerasBinary (encodeCameras recs) =
      if (mapOfList CameraBin.id recs).length = recs.length
      then .ok (mapOfList CameraBin.id recs) else .error .countMismatch := by
  have h0 : readU64 (encodeCameras recs) 0 = .ok recs.length :=
    readU64_at [] ((recs.map encodeCameraRecord).flatten) recs.length
      (by simp [encodeCameras]) rfl hn
  have h1 := readCamerasLoop_at (b := encodeCameras recs) recs
    (encU64 recs.length) [] 8 []
    (by simp [encodeCameras]) (by simp [encU64_length]) hWF
  simp only [readCamerasBinary, h0, okBind, h1, mapOfList]

/-! ## Round-trip of one image record -/

theorem scanName_append (nm suf : Bytes) (h : ∀ c ∈ nm, c ≠ 0) :
    scanName (nm ++ 0 :: suf) = some (nm, nm.length + 1) := by
  induction nm with
  | nil => simp [scanName]
  | cons c rest ih =>
    have hc : c ≠ 0 := h c (by simp)
    have ih2 := ih (fun x hx => h x (by simp [hx]))
    simp [scanName, hc, ih2]

theorem readName_at {b : Bytes} (pre suf : Bytes) (nm : Bytes) (off : Nat)
    (hb : b = pre ++ (nm ++ 0 :: suf)) (hoff : off = pre.length)
    (h : ∀ c ∈ nm, c ≠ 0) :
    readName b off = .ok (nm, off + nm.length + 1) := by
  subst hb hoff
  simp only [readName, List.drop_left, scanName_append nm suf h]
  rfl

theorem readPoints2DList_at {b : Bytes} (xys : List (Nat × Nat)) (pids : List Int)
    (pre suf : Bytes) (off : Nat)
    (hb : b = pre ++ (((xys.zip pids).map
      (fun q => encF64 q.1.1 ++ encF64 q.1.2 ++ encI64 q.2)).flatten ++ suf))
    (hoff : off = pre.length)
    (hlen : xys.length = pids.length)
    (hx : ∀ q ∈ xys, q.1 < 2 ^ 64 ∧ q.2 < 2 ^ 64)
    (hp : ∀ i ∈ pids, inSafe64 i) :
    readPoints2DList b off xys.length = .ok (xys, pids, off + 24 * xys.length) := by
  induction xys generalizing pids pre off with
  | nil =>
    have hpids : pids = [] := by
      cases pids with
      | nil => rfl
      | cons a l => simp at hlen
    subst hpids
    simp [readPoints2DList]
  | cons q rest ih =>
    match pids with
    | [] => simp at hlen
    | p :: ps =>
      have hx0 := hx q (by simp)
      have hp0 := hp p (by simp)
      have h1 : readF64 b off = .ok q.1 :=
        readF64_at pre
          (encF64 q.2 ++ (encI64 p ++ (((rest.zip ps).map
            (fun r => encF64 r.1.1 ++ encF64 r.1.2 ++ encI64 r.2)).flatten ++ suf)))
          q.1 (by simp [hb, List.append_assoc]) hoff hx0.1
      have h2 : readF64 b (off + 8) = .ok q.2 :=
        readF64_at (pre ++ encF64 q.1)
          (encI64 p ++ (((rest.zip ps).map
            (fun r => encF64 r.1.1 ++ encF64 r.1.2 ++ encI64 r.2)).flatten ++ suf))
          q.2 (by simp [hb, List.append_assoc]) (by simp [hoff, encF64_length]) hx0.2
      have h3 : readI64 b (off + 16) = .ok p :=
        readI64_at (pre ++ encF64 q.1 ++ encF64 q.2)
          (((rest.zip ps).map
            (fun r => encF64 r.1.1 ++ encF64 r.1.2 ++ encI64 r.2)).flatten ++ suf)
          p (by simp [hb, List.append_assoc])
          (by simp [hoff, encF64_length])
          (by obtain ⟨ha, hbnd⟩ := hp0; constructor <;>
            [exact le_trans (by norm_num) ha; exact lt_of_lt_of_le hbnd (by norm_num)])
      have h4 := ih ps (pre ++ encF64 q.1 ++ encF64 q.2 ++ encI64 p)
        (off + 24)
        (by simp [hb, List.append_assoc])
        (by simp [hoff, encF64_length, encI64_length])
        (by simpa using hlen)
        (fun r hr => hx r (by simp [hr]))
        (fun i hi => hp i (by simp [hi]))
      have harith : off + 24 + 24 * rest.length = off + 24 * (rest.length + 1) := by
        ring
      simp only [List.length_cons, readPoints2DList, h1, h2, h3, okBind, h4, harith]

theorem flatten_xy_length (l : List ((Nat × Nat) × Int)) :
    ((l.map (fun q => encF64 q.1.1 ++ encF64 q.1.2 ++ encI64 q.2)).flatten).length
      = 24 * l.length := by
  induction l with
  | nil => rfl
  | cons q rest ih =>
    simp only [List.map_cons, List.flatten_cons, List.length_append, encF64_length,
      encI64_length, ih, List.length_cons]
    ring

theorem encodeImageRecord_length (img : ImageBin)
    (hlen : img.xys.length = img.point3D_ids.length) :
    (encodeImageRecord img).length = 73 + img.name.length + 24 * img.xys.length := by
  simp only [encodeImageRecord, List.length_append, encI32_length, encF64_length,
    encU64_length, flatten_xy_length, List.length_cons, List.length_nil,
    List.length_zip, hlen, min_self]
  omega

theorem readImageRecord_at {b : Bytes} (pre suf : Bytes) (img : ImageBin) (off : Nat)
    (hb : b = pre ++ (encodeImageRecord img ++ suf)) (hoff : off = pre.length)
    (hWF : WFImage img) :
    readImageRecord b off = .ok (img, off + (encodeImageRecord img).length) := by
  obtain ⟨hid, hcid, hname, hq1, hq2, hq3, hq4, ht1, ht2, ht3, hxys, hpids, hlen,
    hcount⟩ := hWF
  have hb' : b = pre ++ (encI32 img.id ++ (encF64 img.qvec.1 ++ (encF64 img.qvec.2.1 ++
      (encF64 img.qvec.2.2.1 ++ (encF64 img.qvec.2.2.2 ++ (encF64 img.tvec.1 ++
      (encF64 img.tvec.2.1 ++ (encF64 img.tvec.2.2 ++ (encI32 img.camera_id ++
      (img.name ++ (0 :: (encU64 img.xys.length ++
      (((img.xys.zip img.point3D_ids).map
        (fun q => encF64 q.1.1 ++ encF64 q.1.2 ++ encI64 q.2)).flatten ++
        suf))))))))))))) := by
    simp [hb, encodeImageRecord, List.append_assoc]
  have h1 : readI32 b off = .ok img.id :=
    readI32_at pre _ img.id hb' hoff hid
  have h2 : readF64 b (off + 4) = .ok img.qvec.1 :=
    readF64_at (pre ++ encI32 img.id)
      (encF64 img.qvec.2.1 ++
        (encF64 img.qvec.2.2.1 ++
        (encF64 img.qvec.2.2.2 ++
        (encF64 img.tvec.1 ++
        (encF64 img.tvec.2.1 ++
        (encF64 img.tvec.2.2 ++
        (encI32 img.camera_id ++
        (img.name ++ (0 :: (encU64 img.xys.length ++
        (((img.xys.zip img.point3D_ids).map
          (fun q => encF64 q.1.1 ++ encF64 q.1.2 ++ encI64 q.2)).flatten ++ suf)))))))))))
      img.qvec.1
      (by rw [hb']; simp [List.append_assoc])
      (by simp [hoff, encI32_length, encF64_length])
      hq1
  have h3 : readF64 b (off + 12) = .ok img.qvec.2.1 :=
    readF64_at (pre ++ encI32 img.id ++ encF64 img.qvec.1)
      (encF64 img.qvec.2.2.1 ++
        (encF64 img.qvec.2.2.2 ++
        (encF64 img.tvec.1 ++
        (encF64 img.tvec.2.1 ++
        (encF64 img.tvec.2.2 ++
        (encI32 img.camera_id ++
        (img.name ++ (0 :: (encU64 img.xys.length ++
        (((img.xys.zip img.point3D_ids).map
          (fun q => encF64 q.1.1 ++ encF64 q.1.2 ++ encI64 q.2)).flatten ++ suf))))))))))
      img.qvec.2.1
      (by rw [hb']; simp [List.append_assoc])
      (by simp [hoff, encI32_length, encF64_length])
      hq2
  have h4 : readF64 b (off + 20) = .ok img.qvec.2.2.1 :=
    readF64_at (pre ++ encI32 img.id ++ encF64 img.qvec.1 ++ encF64 img.qvec.2.1)
      (encF64 img.qvec.2.2.2 ++
        (encF64 img.tvec.1 ++
        (encF64 img.tvec.2.1 ++
        (encF64 img.tvec.2.2 ++
        (encI32 img.camera_id ++
        (img.name ++ (0 :: (encU64 img.xys.length ++
        (((img.xys.zip img.point3D_ids).map
          (fun q => encF64 q.1.1 ++ encF64 q.1.2 ++ encI64 q.2)).flatten ++ suf)))))))))
      img.qvec.2.2.1
      (by rw [hb']; simp [List.append_assoc])
      (by simp [hoff, encI32_length, encF64_length])
      hq3
  have h5 : readF64 b (off + 28) = .ok img.qvec.2.2.2 :=
    readF64_at (pre ++ encI32 img.id ++ encF64 img.qvec.1 ++ encF64 img.qvec.2.1 ++ encF64 img.qvec.2.2.1)
      (encF64 img.tvec.1 ++
        (encF64 img.tvec.2.1 ++
        (encF64 img.tvec.2.2 ++
        (encI32 img.camera_id ++
        (img.name ++ (0 :: (encU64 img.xys.length ++
        (((img.xys.zip img.point3D_ids).map
          (fun q => encF64 q.1.1 ++ encF64 q.1.2 ++ encI64 q.2)).flatten ++ suf))))))))
      img.qvec.2.2.2
      (by rw [hb']; simp [List.append_assoc])
      (by simp [hoff, encI32_length, encF64_length])
      hq4
  have h6 : readF64 b (off + 36) = .ok img.tvec.1 :=
    readF64_at (pre ++ encI32 img.id ++ encF64 img.qvec.1 ++ encF64 img.qvec.2.1 ++ encF64 img.qvec.2.2.1 ++ encF64 img.qvec.2.2.2)
      (encF64 img.tvec.2.1 ++
        (encF64 img.tvec.2.2 ++
        (encI32 img.camera_id ++
        (img.name ++ (0 :: (encU64 img.xys.length ++
        (((img.xys.zip img.point3D_ids).map
          (fun q => encF64 q.1.1 ++ encF64 q.1.2 ++ encI64 q.2)).flatten ++ suf)))))))
      img.tvec.1
      (by rw [hb']; simp [List.append_assoc])
      (by simp [hoff, encI32_length, encF64_length])
      ht1
  have h7 : readF64 b (off + 44) = .ok img.tvec.2.1 :=
    readF64_at (pre ++ encI32 img.id ++ encF64 img.qvec.1 ++ encF64 img.qvec.2.1 ++ encF64 img.qvec.2.2.1 ++ encF64 img.qvec.2.2.2 ++ encF64 img.tvec.1)
      (encF64 img.tvec.2.2 ++
        (encI32 img.camera_id ++
        (img.name ++ (0 :: (encU64 img.xys.length ++
        (((img.xys.zip img.point3D_ids).map
          (fun q => encF64 q.1.1 ++ encF64 q.1.2 ++ encI64 q.2)).flatten ++ suf))))))
      img.tvec.2.1
      (by rw [hb']; simp [List.append_assoc])
      (by simp [hoff, encI32_length, encF64_length])
      ht2
  have h8 : readF64 b (off + 52) = .ok img.tvec.2.2 :=
    readF64_at (pre ++ encI32 img.id ++ encF64 img.qvec.1 ++ encF64 img.qvec.2.1 ++ encF64 img.qvec.2.2.1 ++ encF64 img.qvec.2.2.2 ++ encF64 img.tvec.1 ++ encF64 img.tvec.2.1)
      (encI32 img.camera_id ++
        (img.name ++ (0 :: (encU64 img.xys.length ++
        (((img.xys.zip img.point3D_ids).map
          (fun q => encF64 q.1.1 ++ encF64 q.1.2 ++ encI64 q.2)).flatten ++ suf)))))
      img.tvec.2.2
      (by rw [hb']; simp [List.append_assoc])
      (by simp [hoff, encI32_length, encF64_length])
      ht3
  have h9 : readI32 b (off + 60) = .ok img.camera_id :=
    readI32_at (pre ++ encI32 img.id ++ encF64 img.qvec.1 ++ encF64 img.qvec.2.1 ++ encF64 img.qvec.2.2.1 ++ encF64 img.qvec.2.2.2 ++ encF64 img.tvec.1 ++ encF64 img.tvec.2.1 ++ encF64 img.tvec.2.2)
      (img.name ++ (0 :: (encU64 img.xys.length ++
        (((img.xys.zip img.point3D_ids).map
          (fun q => encF64 q.1.1 ++ encF64 q.1.2 ++ encI64 q.2)).flatten ++ suf))))
      img.camera_id
      (by rw [hb']; simp [List.append_assoc])
      (by simp [hoff, encI32_length, encF64_length])
      hcid
  have h10 : readName b (off + 64) = .ok (img.name, off + 64 + img.name.length + 1) :=
    readName_at (pre ++ encI32 img.id ++ encF64 img.qvec.1 ++ encF64 img.qvec.2.1 ++
      encF64 img.qvec.2.2.1 ++ encF64 img.qvec.2.2.2 ++ encF64 img.tvec.1 ++
      encF64 img.tvec.2.1 ++ encF64 img.tvec.2.2 ++ encI32 img.camera_id)
      (encU64 img.xys.length ++
        (((img.xys.zip img.point3D_ids).map
          (fun q => encF64 q.1.1 ++ encF64 q.1.2 ++ encI64 q.2)).flatten ++ suf))
      img.name (off + 64)
      (by rw [hb']; simp [List.append_assoc])
      (by simp [hoff, encI32_length, encF64_length])
      (fun c hc => Nat.pos_iff_ne_zero.mp (hname c hc).1)
  have h11 : readU64 b (off + 64 + img.name.length + 1) = .ok img.xys.length :=
    readU64_at (pre ++ encI32 img.id ++ encF64 img.qvec.1 ++ encF64 img.qvec.2.1 ++
      encF64 img.qvec.2.2.1 ++ encF64 img.qvec.2.2.2 ++ encF64 img.tvec.1 ++
      encF64 img.tvec.2.1 ++ encF64 img.tvec.2.2 ++ encI32 img.camera_id ++
      img.name ++ [0])
      (((img.xys.zip img.point3D_ids).map
        (fun q => encF64 q.1.1 ++ encF64 q.1.2 ++ encI64 q.2)).flatten ++ suf)
      img.xys.length
      (by rw [hb']; simp [List.append_assoc])
      (by simp [hoff, encI32_length, encF64_length]; omega)
      hcount
  have h12 : readPoints2DList b (off + 64 + img.name.length + 1 + 8) img.xys.length =
      .ok (img.xys, img.point3D_ids,
           off + 64 + img.name.length + 1 + 8 + 24 * img.xys.length) :=
    readPoints2DList_at img.xys img.point3D_ids
      (pre ++ encI32 img.id ++ encF64 img.qvec.1 ++ encF64 img.qvec.2.1 ++
        encF64 img.qvec.2.2.1 ++ encF64 img.qvec.2.2.2 ++ encF64 img.tvec.1 ++
        encF64 img.tvec.2.1 ++ encF64 img.tvec.2.2 ++ encI32 img.camera_id ++
        img.name ++ [0] ++ encU64 img.xys.length)
      suf (off + 64 + img.name.length + 1 + 8)
      (by rw [hb']; simp [List.append_assoc])
      (by simp [hoff, encI32_length, encF64_length, encU64_length]; omega)
      hlen hxys hpids
  have harith : off + 64 + img.name.length + 1 + 8 + 24 * img.xys.length =
      off + (73 + img.name.length + 24 * img.xys.length) := by ring
  rw [encodeImageRecord_length img hlen]
  simp only [readImageRecord, h1, h2, h3, h4, h5, h6, h7, h8, h9, h10, h11, h12,
    okBind, harith]

/-! ## Round-trip of the image loop and of `readImagesBinary` -/

theorem readImagesLoop_at {b : Bytes} (recs : List ImageBin)
    (pre suf : Bytes) (off : Nat) (acc : List (Int × ImageBin))
    (hb : b = pre ++ ((recs.map encodeImageRecord).flatten ++ suf))
    (hoff : off = pre.length)
    (hWF : ∀ r ∈ recs, WFImage r) :
    readImagesLoop b off recs.length acc =
      .ok (recs.foldl (fun m r => insertKV m r.id r) acc,
           off + ((recs.map encodeImageRecord).flatten).length) := by
  induction recs generalizing pre off acc with
  | nil => simp [readImagesLoop]
  | cons r rest ih =>
    have h1 : readImageRecord b off = .ok (r, off + (encodeImageRecord r).length) :=
      readImageRecord_at pre ((rest.map encodeImageRecord).flatten ++ suf) r off
        (by simp [hb, List.append_assoc]) hoff (hWF r (by simp))
    have h2 := ih (pre ++ encodeImageRecord r) (off + (encodeImageRecord r).length)
      (insertKV acc r.id r)
      (by simp [hb, List.append_assoc])
      (by simp [hoff])
      (fun x hx => hWF x (by simp [hx]))
    simp only [List.length_cons, readImagesLoop, h1, okBind, h2, List.map_cons,
      List.flatten_cons, List.length_append, List.foldl_cons]
    congr 2
    omega

theorem readImagesBinary_encode (recs : List ImageBin)
    (hWF : ∀ r ∈ recs, WFImage r) (hn : recs.length < 2 ^ 64) :
    readImagesBinary (encodeImages recs) = .ok (mapOfList ImageBin.id recs) := by
  have h0 : readU64 (encodeImages recs) 0 = .ok recs.length :=
    readU64_at [] ((recs.map encodeImageRecord).flatten) recs.length
      (by simp [encodeImages]) rfl hn
  have h1 := readImagesLoop_at (b := encodeImages recs) recs
    (encU64 recs.length) [] 8 []
    (by simp [encodeImages]) (by simp [encU64_length]) hWF
  simp only [readImagesBinary, h0, okBind, h1, mapOfList]

/-! ## Round-trip of one 3D-point record -/

theorem flatten_track_length (l : List (Int × Int)) :
    ((l.map (fun q => encI32 q.1 ++ encI32 q.2)).flatten).length = 8 * l.length := by
  induction l with
  | nil => rfl
  | cons q rest ih =>
    simp only [List.map_cons, List.flatten_cons, List.length_append, encI32_length,
      ih, List.length_cons]
    ring

theorem encodePointRecord_length (p : PointBin)
    (hlen : p.imageIds.length = p.point2DIdxs.length) :
    (encodePointRecord p).length = 51 + 8 * p.imageIds.length := by
  simp only [encodePointRecord, List.length_append, encU64_length, encF64_length,
    encU8_length, flatten_track_length, List.length_zip, hlen, min_self]

theorem readTrack_at {b : Bytes} (ids idxs : List Int)
    (pre suf : Bytes) (off : Nat)
    (hb : b = pre ++ (((ids.zip idxs).map
      (fun q => encI32 q.1 ++ encI32 q.2)).flatten ++ suf))
    (hoff : off = pre.length)
    (hlen : ids.length = idxs.length)
    (hids : ∀ i ∈ ids, inI32 i) (hidxs : ∀ i ∈ idxs, inI32 i) :
    readTrack b off ids.length = .ok (ids, idxs, off + 8 * ids.length) := by
  induction ids generalizing idxs pre off with
  | nil =>
    have hidxs0 : idxs = [] := by
      cases idxs with
      | nil => rfl
      | cons a l => simp at hlen
    subst hidxs0
    simp [readTrack]
  | cons i rest ih =>
    match idxs with
    | [] => simp at hlen
    | j :: js =>
      have h1 : readI32 b off = .ok i :=
        readI32_at pre
          (encI32 j ++ (((rest.zip js).map
            (fun q => encI32 q.1 ++ encI32 q.2)).flatten ++ suf))
          i (by simp [hb, List.append_assoc]) hoff (hids i (by simp))
      have h2 : readI32 b (off + 4) = .ok j :=
        readI32_at (pre ++ encI32 i)
          (((rest.zip js).map (fun q => encI32 q.1 ++ encI32 q.2)).flatten ++ suf)
          j (by simp [hb, List.append_assoc]) (by simp [hoff, encI32_length])
          (hidxs j (by simp))
      have h3 := ih js (pre ++ encI32 i ++ encI32 j) (off + 8)
        (by simp [hb, List.append_assoc])
        (by simp [hoff, encI32_length])
        (by simpa using hlen)
        (fun x hx => hids x (by simp [hx]))
        (fun x hx => hidxs x (by simp [hx]))
      have harith : off + 8 + 8 * rest.length = off + 8 * (rest.length + 1) := by ring
      simp only [List.length_cons, readTrack, h1, h2, okBind, h3, harith]

theorem readPoint3DRecord_at {b : Bytes} (pre suf : Bytes) (p : PointBin) (off : Nat)
    (hb : b = pre ++ (encodePointRecord p ++ suf)) (hoff : off = pre.length)
    (hWF : WFPoint p) :
    readPoint3DRecord b off = .ok (p, off + (encodePointRecord p).length) := by
  obtain ⟨hid, hx1, hx2, hx3, hr1, hr2, hr3, herr, hids, hidxs, hlen, hcount⟩ := hWF
  have hb' : b = pre ++ (encU64 p.id ++ (encF64 p.xyz.1 ++ (encF64 p.xyz.2.1 ++
      (encF64 p.xyz.2.2 ++ (encU8 p.rgb.1 ++ (encU8 p.rgb.2.1 ++ (encU8 p.rgb.2.2 ++
      (encF64 p.error ++ (encU64 p.imageIds.length ++
      (((p.imageIds.zip p.point2DIdxs).map
        (fun q => encI32 q.1 ++ encI32 q.2)).flatten ++ suf)))))))))) := by
    simp [hb, encodePointRecord, List.append_assoc]
  have h1 : readU64 b off = .ok p.id :=
    readU64_at (pre)
      (encF64 p.xyz.1 ++
        (encF64 p.xyz.2.1 ++
        (encF64 p.xyz.2.2 ++
        (encU8 p.rgb.1 ++
        (encU8 p.rgb.2.1 ++
        (encU8 p.rgb.2.2 ++
        (encF64 p.error ++
        (encU64 p.imageIds.length ++
        ((((p.imageIds.zip p.point2DIdxs).map
          (fun q => encI32 q.1 ++ encI32 q.2)).flatten ++ suf))))))))))
      p.id
      hb'
      hoff
      (lt_trans hid (by norm_num))
  have h2 : readF64 b (off + 8) = .ok p.xyz.1 :=
    readF64_at (pre ++ encU64 p.id)
      (encF64 p.xyz.2.1 ++
        (encF64 p.xyz.2.2 ++
        (encU8 p.rgb.1 ++
        (encU8 p.rgb.2.1 ++
        (encU8 p.rgb.2.2 ++
        (encF64 p.error ++
        (encU64 p.imageIds.length ++
        ((((p.imageIds.zip p.point2DIdxs).map
          (fun q => encI32 q.1 ++ encI32 q.2)).flatten ++ suf)))))))))
      p.xyz.1
      (by rw [hb']; simp [List.append_assoc])
      (by simp [hoff, encU64_length, encF64_length, encU8_length])
      hx1
  have h3 : readF64 b (off + 16) = .ok p.xyz.2.1 :=
    readF64_at (pre ++ encU64 p.id ++ encF64 p.xyz.1)
      (encF64 p.xyz.2.2 ++
        (encU8 p.rgb.1 ++
        (encU8 p.rgb.2.1 ++
        (encU8 p.rgb.2.2 ++
        (encF64 p.error ++
        (encU64 p.imageIds.length ++
        ((((p.imageIds.zip p.point2DIdxs).map
          (fun q => encI32 q.1 ++ encI32 q.2)).flatten ++ suf))))))))
      p.xyz.2.1
      (by rw [hb']; simp [List.append_assoc])
      (by simp [hoff, encU64_length, encF64_length, encU8_length])
      hx2
  have h4 : readF64 b (off + 24) = .ok p.xyz.2.2 :=
    readF64_at (pre ++ encU64 p.id ++ encF64 p.xyz.1 ++ encF64 p.xyz.2.1)
      (encU8 p.rgb.1 ++
        (encU8 p.rgb.2.1 ++
        (encU8 p.rgb.2.2 ++
        (encF64 p.error ++
        (encU64 p.imageIds.length ++
        ((((p.imageIds.zip p.point2DIdxs).map
          (fun q => encI32 q.1 ++ encI32 q.2)).flatten ++ suf)))))))
      p.xyz.2.2
      (by rw [hb']; simp [List.append_assoc])
      (by simp [hoff, encU64_length, encF64_length, encU8_length])
      hx3
  have h5 : readU8 b (off + 32) = .ok p.rgb.1 :=
    readU8_at (pre ++ encU64 p.id ++ encF64 p.xyz.1 ++ encF64 p.xyz.2.1 ++ encF64 p.xyz.2.2)
      (encU8 p.rgb.2.1 ++
        (encU8 p.rgb.2.2 ++
        (encF64 p.error ++
        (encU64 p.imageIds.length ++
        ((((p.imageIds.zip p.point2DIdxs).map
          (fun q => encI32 q.1 ++ encI32 q.2)).flatten ++ suf))))))
      p.rgb.1
      (by rw [hb']; simp [List.append_assoc])
      (by simp [hoff, encU64_length, encF64_length, encU8_length])
      hr1
  have h6 : readU8 b (off + 33) = .ok p.rgb.2.1 :=
    readU8_at (pre ++ encU64 p.id ++ encF64 p.xyz.1 ++ encF64 p.xyz.2.1 ++ encF64 p.xyz.2.2 ++ encU8 p.rgb.1)
      (encU8 p.rgb.2.2 ++
        (encF64 p.error ++
        (encU64 p.imageIds.length ++
        ((((p.imageIds.zip p.point2DIdxs).map
          (fun q => encI32 q.1 ++ encI32 q.2)).flatten ++ suf)))))
      p.rgb.2.1
      (by rw [hb']; simp [List.append_assoc])
      (by simp [hoff, encU64_length, encF64_length, encU8_length])
      hr2
  have h7 : readU8 b (off + 34) = .ok p.rgb.2.2 :=
    readU8_at (pre ++ encU64 p.id ++ encF64 p.xyz.1 ++ encF64 p.xyz.2.1 ++ encF64 p.xyz.2.2 ++ encU8 p.rgb.1 ++ encU8 p.rgb.2.1)
      (encF64 p.error ++
        (encU64 p.imageIds.length ++
        ((((p.imageIds.zip p.point2DIdxs).map
          (fun q => encI32 q.1 ++ encI32 q.2)).flatten ++ suf))))
      p.rgb.2.2
      (by rw [hb']; simp [List.append_assoc])
      (by simp [hoff, encU64_length, encF64_length, encU8_length])
      hr3
  have h8 : readF64 b (off + 35) = .ok p.error :=
    readF64_at (pre ++ encU64 p.id ++ encF64 p.xyz.1 ++ encF64 p.xyz.2.1 ++ encF64 p.xyz.2.2 ++ encU8 p.rgb.1 ++ encU8 p.rgb.2.1 ++ encU8 p.rgb.2.2)
      (encU64 p.imageIds.length ++
        ((((p.imageIds.zip p.point2DIdxs).map
          (fun q => encI32 q.1 ++ encI32 q.2)).flatten ++ suf)))
      p.error
      (by rw [hb']; simp [List.append_assoc])
      (by simp [hoff, encU64_length, encF64_length, encU8_length])
      herr
  have h9 : readU64 b (off + 43) = .ok p.imageIds.length :=
    readU64_at (pre ++ encU64 p.id ++ encF64 p.xyz.1 ++ encF64 p.xyz.2.1 ++ encF64 p.xyz.2.2 ++ encU8 p.rgb.1 ++ encU8 p.rgb.2.1 ++ encU8 p.rgb.2.2 ++ encF64 p.error)
      ((((p.imageIds.zip p.point2DIdxs).map
          (fun q => encI32 q.1 ++ encI32 q.2)).flatten ++ suf))
      p.imageIds.length
      (by rw [hb']; simp [List.append_assoc])
      (by simp [hoff, encU64_length, encF64_length, encU8_length])
      hcount
  have h10 : readTrack b (off + 51) p.imageIds.length =
      .ok (p.imageIds, p.point2DIdxs, off + 51 + 8 * p.imageIds.length) :=
    readTrack_at p.imageIds p.point2DIdxs
      (pre ++ encU64 p.id ++ encF64 p.xyz.1 ++ encF64 p.xyz.2.1 ++ encF64 p.xyz.2.2 ++
        encU8 p.rgb.1 ++ encU8 p.rgb.2.1 ++ encU8 p.rgb.2.2 ++ encF64 p.error ++
        encU64 p.imageIds.length)
      suf (off + 51)
      (by rw [hb']; simp [List.append_assoc])
      (by simp [hoff, encU64_length, encF64_length, encU8_length])
      hlen hids hidxs
  have harith : off + 51 + 8 * p.imageIds.length = off + (51 + 8 * p.imageIds.length) := by
    ring
  rw [encodePointRecord_length p hlen]
  simp only [readPoint3DRecord, h1, h2, h3, h4, h5, h6, h7, h8, h9, h10, okBind,
    harith]

theorem readPointsLoop_at {b : Bytes} (recs : List PointBin)
    (pre suf : Bytes) (off : Nat) (acc : List (Nat × PointBin))
    (hb : b = pre ++ ((recs.map encodePointRecord).flatten ++ suf))
    (hoff : off = pre.length)
    (hWF : ∀ r ∈ recs, WFPoint r) :
    readPointsLoop b off recs.length acc =
      .ok (recs.foldl (fun m r => insertKV m r.id r) acc,
           off + ((recs.map encodePointRecord).flatten).length) := by
  induction recs generalizing pre off acc with
  | nil => simp [readPointsLoop]
  | cons r rest ih =>
    have h1 : readPoint3DRecord b off = .ok (r, off + (encodePointRecord r).length) :=
      readPoint3DRecord_at pre ((rest.map encodePointRecord).flatten ++ suf) r off
        (by simp [hb, List.append_assoc]) hoff (hWF r (by simp))
    have h2 := ih (pre ++ encodePointRecord r) (off + (encodePointRecord r).length)
      (insertKV acc r.id r)
      (by simp [hb, List.append_assoc])
      (by simp [hoff])
      (fun x hx => hWF x (by simp [hx]))
    simp only [List.length_cons, readPointsLoop, h1, okBind, h2, List.map_cons,
      List.flatten_cons, List.length_append, List.foldl_cons]
    congr 2
    omega

theorem readPoints3DBinary_encode (recs : List PointBin)
    (hWF : ∀ r ∈ recs, WFPoint r) (hn : recs.length < 2 ^ 64) :
    readPoints3DBinary (encodePoints recs) = .ok (mapOfList PointBin.id recs) := by
  have h0 : readU64 (encodePoints recs) 0 = .ok recs.length :=
    readU64_at [] ((recs.map encodePointRecord).flatten) recs.length
      (by simp [encodePoints]) rfl hn
  have h1 := readPointsLoop_at (b := encodePoints recs) recs
    (encU64 recs.length) [] 8 []
    (by simp [encodePoints]) (by simp [encU64_length]) hWF
  simp only [readPoints3DBinary, h0, okBind, h1, mapOfList]

/-! ## Key-counting and lookup lemmas for the JS-object model -/

section MapLemmas

variable {κ α : Type} [DecidableEq κ]

theorem insertKV_keys_mem (m : List (κ × α)) (k : κ) (v : α)
    (h : k ∈ m.map Prod.fst) :
    (insertKV m k v).map Prod.fst = m.map Prod.fst := by
  unfold insertKV
  rw [if_pos (by simpa using h)]
  rw [List.map_map]
  refine List.map_congr_left ?_
  intro p _
  by_cases hp : p.1 = k
  · simp [hp]
  · simp [hp]

theorem insertKV_keys_notmem (m : List (κ × α)) (k : κ) (v : α)
    (h : k ∉ m.map Prod.fst) :
    (insertKV m k v).map Prod.fst = m.map Prod.fst ++ [k] := by
  unfold insertKV
  rw [if_neg (by simpa using h)]
  simp

theorem insertKV_length (m : List (κ × α)) (k : κ) (v : α) :
    (insertKV m k v).length =
      if k ∈ m.map Prod.fst then m.length else m.length + 1 := by
  unfold insertKV
  split <;> rename_i h
  · rw [if_pos (by simpa using h)]
    simp
  · rw [if_neg (by simpa using h)]
    simp

theorem foldl_insert_length_le (key : α → κ) (recs : List α) (m : List (κ × α)) :
    (recs.foldl (fun acc r => insertKV acc (key r) r) m).length ≤
      m.length + recs.length := by
  induction recs generalizing m with
  | nil => simp
  | cons r rest ih =>
    simp only [List.foldl_cons, List.length_cons]
    refine le_trans (ih (insertKV m (key r) r)) ?_
    rw [insertKV_length]
    split <;> omega

theorem foldl_insert_length_nodup (key : α → κ) (recs : List α) (m : List (κ × α))
    (hnd : (recs.map key).Nodup)
    (hdis : ∀ r ∈ recs, key r ∉ m.map Prod.fst) :
    (recs.foldl (fun acc r => insertKV acc (key r) r) m).length =
      m.length + recs.length := by
  induction recs generalizing m with
  | nil => simp
  | cons r rest ih =>
    simp only [List.map_cons, List.nodup_cons] at hnd
    have hkm : key r ∉ m.map Prod.fst := hdis r (by simp)
    have hlen : (insertKV m (key r) r).length = m.length + 1 := by
      rw [insertKV_length, if_neg hkm]
    have hkeys := insertKV_keys_notmem m (key r) r hkm
    simp only [List.foldl_cons, List.length_cons]
    rw [ih (insertKV m (key r) r) hnd.2 ?_, hlen]
    · omega
    · intro x hx
      rw [hkeys]
      simp only [List.mem_append, List.mem_singleton]
      rintro (hmem | heq)
      · exact hdis x (by simp [hx]) hmem
      · exact hnd.1 (heq ▸ List.mem_map_of_mem key hx)

theorem foldl_insert_length_mem (key : α → κ) (recs : List α) (m : List (κ × α))
    (h : ∃ r ∈ recs, key r ∈ m.map Prod.fst) :
    (recs.foldl (fun acc r => insertKV acc (key r) r) m).length <
      m.length + recs.length := by
  induction recs generalizing m with
  | nil => simp at h
  | cons r rest ih =>
    obtain ⟨x, hx, hxm⟩ := h
    simp only [List.foldl_cons, List.length_cons]
    by_cases hk : key r ∈ m.map Prod.fst
    · have hlen : (insertKV m (key r) r).length = m.length := by
        rw [insertKV_length, if_pos hk]
      calc (rest.foldl (fun acc r => insertKV acc (key r) r)
              (insertKV m (key r) r)).length
          ≤ (insertKV m (key r) r).length + rest.length :=
            foldl_insert_length_le key rest _
        _ = m.length + rest.length := by rw [hlen]
        _ < m.length + (rest.length + 1) := by omega
    · have hxrest : x ∈ rest := by
        rcases List.mem_cons.mp hx with heq | hmem
        · exact absurd (heq ▸ hxm) hk
        · exact hmem
      have hlen : (insertKV m (key r) r).length = m.length + 1 := by
        rw [insertKV_length, if_neg hk]
      have hxm' : key x ∈ (insertKV m (key r) r).map Prod.fst := by
        rw [insertKV_keys_notmem m (key r) r hk]
        simp [hxm]
      have := ih (insertKV m (key r) r) ⟨x, hxrest, hxm'⟩
      omega

theorem foldl_insert_length_dup (key : α → κ) (recs : List α) (m : List (κ × α))
    (h : ¬ (recs.map key).Nodup) :
    (recs.foldl (fun acc r => insertKV acc (key r) r) m).length <
      m.length + recs.length := by
  induction recs generalizing m with
  | nil => simp at h
  | cons r rest ih =>
    simp only [List.map_cons, List.nodup_cons, not_and_or] at h
    simp only [List.foldl_cons, List.length_cons]
    rcases h with hmem | hdup
    · rw [not_not] at hmem
      obtain ⟨x, hx, hkx⟩ := List.mem_map.mp hmem
      have hxm : key x ∈ (insertKV m (key r) r).map Prod.fst := by
        by_cases hk : key r ∈ m.map Prod.fst
        · rw [insertKV_keys_mem m (key r) r hk, ← hkx] at *
          exact hkx ▸ hk
        · rw [insertKV_keys_notmem m (key r) r hk]
          simp [hkx]
      have := foldl_insert_length_mem key rest (insertKV m (key r) r) ⟨x, hx, hxm⟩
      have hlen := insertKV_length m (key r) r
      split at hlen <;> omega
    · have := ih (insertKV m (key r) r) hdup
      have hlen := insertKV_length m (key r) r
      split at hlen <;> omega

theorem mapOfList_length_nodup (key : α → κ) (recs : List α)
    (h : (recs.map key).Nodup) :
    (mapOfList key recs).length = recs.length := by
  have := foldl_insert_length_nodup key recs [] h (by simp)
  simpa [mapOfList] using this

theorem mapOfList_length_dup (key : α → κ) (recs : List α)
    (h : ¬ (recs.map key).Nodup) :
    (mapOfList key recs).length < recs.length := by
  have := foldl_insert_length_dup key recs [] h
  simpa [mapOfList] using this

theorem lookupKV_replace (m : List (κ × α)) (k : κ) (v : α) :
    lookupKV (m.map (fun p => if p.1 = k then (k, v) else p)) k =
      if k ∈ m.map Prod.fst then some v else none := by
  induction m with
  | nil => simp [lookupKV]
  | cons p rest ih =>
    by_cases hp : p.1 = k
    · simp only [List.map_cons, if_pos hp, lookupKV, List.find?_cons]
      simp [hp]
    · simp only [List.map_cons, if_neg hp, lookupKV, List.find?_cons]
      have hd : (decide (p.1 = k)) = false := by simp [hp]
      rw [hd]
      simp only [lookupKV] at ih
      rw [ih]
      have hk : k ≠ p.1 := fun he => hp he.symm
      by_cases hmem : k ∈ List.map Prod.fst rest
      · simp [hmem, List.mem_cons]
      · simp [hmem, List.mem_cons, hk]

theorem find?_replace_ne (m : List (κ × α)) (k k' : κ) (v : α) (h : k' ≠ k) :
    List.find? (fun p => p.1 = k')
        (m.map (fun p => if p.1 = k then (k, v) else p)) =
      List.find? (fun p => p.1 = k') m := by
  induction m with
  | nil => simp
  | cons p rest ih =>
    by_cases hp : p.1 = k
    · simp only [List.map_cons, if_pos hp, List.find?_cons]
      have h1 : (decide (k = k')) = false := by simp [Ne.symm h]
      have h2 : (decide (p.1 = k')) = false := by
        simp only [decide_eq_false_iff_not]
        rw [hp]
        exact Ne.symm h
      rw [h1, h2, ih]
    · simp only [List.map_cons, if_neg hp, List.find?_cons]
      by_cases hpk : p.1 = k'
      · simp [hpk]
      · have h1 : (decide (p.1 = k')) = false := by simp [hpk]
        rw [h1, ih]

theorem lookupKV_insert_self (m : List (κ × α)) (k : κ) (v : α) :
    lookupKV (insertKV m k v) k = some v := by
  unfold insertKV
  split <;> rename_i h
  · rw [lookupKV_replace, if_pos (by simpa using h)]
  · have h' : k ∉ List.map Prod.fst m := by simpa using h
    simp only [lookupKV, List.find?_append]
    have hnone : m.find? (fun p => p.1 = k) = none := by
      rw [List.find?_eq_none]
      intro p hp
      simp only [decide_eq_true_eq]
      intro hpk
      exact h' (hpk ▸ List.mem_map_of_mem Prod.fst hp)
    rw [hnone]
    simp [List.find?]

theorem lookupKV_insert_ne (m : List (κ × α)) (k k' : κ) (v : α) (h : k' ≠ k) :
    lookupKV (insertKV m k v) k' = lookupKV m k' := by
  unfold insertKV
  split
  · unfold lookupKV
    rw [find?_replace_ne m k k' v h]
  · unfold lookupKV
    rw [List.find?_append]
    have hnone : List.find? (fun p => p.1 = k') [(k, v)] = none := by
      simp [List.find?, Ne.symm h]
    rw [hnone]
    simp

theorem lookupKV_foldl (key : α → κ) (recs : List α) (m : List (κ × α)) (k : κ) :
    lookupKV (recs.foldl (fun acc r => insertKV acc (key r) r) m) k =
      match recs.reverse.find? (fun r => key r = k) with
      | some r => some r
      | none => lookupKV m k := by
  induction recs generalizing m with
  | nil => simp
  | cons r rest ih =>
    simp only [List.foldl_cons, List.reverse_cons, List.find?_append]
    rw [ih (insertKV m (key r) r)]
    cases hfind : rest.reverse.find? (fun r => key r = k) with
    | some r' => simp
    | none =>
      simp only [Option.none_or]
      by_cases hk : key r = k
      · have : List.find? (fun x => key x = k) [r] = some r := by simp [hk]
        rw [this]
        subst hk
        exact lookupKV_insert_self m (key r) r
      · have : List.find? (fun x => key x = k) [r] = none := by simp [hk]
        rw [this]
        exact lookupKV_insert_ne m (key r) k r (fun hkk => hk hkk.symm)

theorem lookupKV_mapOfList (key : α → κ) (recs : List α) (k : κ) :
    lookupKV (mapOfList key recs) k = recs.reverse.find? (fun r => key r = k) := by
  rw [mapOfList, lookupKV_foldl]
  cases hfind : recs.reverse.find? (fun r => key r = k) with
  | some r => simp
  | none => simp [lookupKV]

end MapLemmas

/-! ## Decoding a prefix of the records followed by more data -/

theorem readCamerasLoop_split {b : Bytes} (recs : List CameraBin)
    (pre suf : Bytes) (off k : Nat) (acc : List (Int × CameraBin))
    (hb : b = pre ++ ((recs.map encodeCameraRecord).flatten ++ suf))
    (hoff : off = pre.length)
    (hWF : ∀ c ∈ recs, WFCamera c) :
    readCamerasLoop b off (recs.length + k) acc =
      readCamerasLoop b (off + ((recs.map encodeCameraRecord).flatten).length) k
        (recs.foldl (fun m c => insertKV m c.id c) acc) := by
  induction recs generalizing pre off acc with
  | nil => simp [readCamerasLoop]
  | cons c rest ih =>
    have h1 : readCameraRecord b off = .ok (c, off + (encodeCameraRecord c).length) :=
      readCameraRecord_at pre ((rest.map encodeCameraRecord).flatten ++ suf) c
        (by simp [hb, List.append_assoc]) hoff (hWF c (by simp))
    have h2 := ih (pre ++ encodeCameraRecord c) (off + (encodeCameraRecord c).length)
      (insertKV acc c.id c)
      (by simp [hb, List.append_assoc])
      (by simp [hoff])
      (fun x hx => hWF x (by simp [hx]))
    have hstep : (c :: rest).length + k = (rest.length + k) + 1 := by
      simp
      omega
    rw [hstep]
    simp only [readCamerasLoop, h1, okBind, h2, List.map_cons, List.flatten_cons,
      List.length_append, List.foldl_cons]
    congr 1
    omega

/-! ## Claim C1: encode/decode round trip -/

set_option maxRecDepth 40000 in
/-- C1 (counterexample): the round trip does **not** hold for every list of
records — a cameras list with a duplicated camera id encodes to a buffer
whose decode throws the count-mismatch error instead of returning the
id-keyed mapping of the original records. -/
theorem claim_C1_counterexample :
    readCamerasBinary (encodeCameras
      [⟨1, "PINHOLE", 1920, 1080, [10, 11, 12, 13]⟩,
       ⟨1, "PINHOLE", 640, 480, [1, 2, 3, 4]⟩]) ≠
      .ok (mapOfList CameraBin.id
        [⟨1, "PINHOLE", 1920, 1080, [10, 11, 12, 13]⟩,
         ⟨1, "PINHOLE", 640, 480, [1, 2, 3, 4]⟩]) := by
  decide

/-- C1 (amended): for well-formed camera, image and point records (fields in
wire range, `params.length` matching the registry, names free of zero
bytes, parallel arrays of equal length) whose **camera** ids are pairwise
distinct, encoding with the little-endian layouts of spec sections 4.2-4.4
and decoding with the three decoders reproduces the records exactly as the
id-keyed mappings; duplicate camera ids are the one exception forced by the
count check (see C5), while image and point lists need no distinctness.
Records with -1 sentinel `point3D_ids`, zero-length tracks and empty names
are covered. -/
theorem claim_C1_roundtrip (cams : List CameraBin) (imgs : List ImageBin)
    (pts : List PointBin)
    (hc : ∀ c ∈ cams, WFCamera c) (hcd : (cams.map CameraBin.id).Nodup)
    (hcn : cams.length < 2 ^ 64)
    (hi : ∀ r ∈ imgs, WFImage r) (hin : imgs.length < 2 ^ 64)
    (hp : ∀ p ∈ pts, WFPoint p) (hpn : pts.length < 2 ^ 64) :
    readCamerasBinary (encodeCameras cams) = .ok (mapOfList CameraBin.id cams) ∧
    readImagesBinary (encodeImages imgs) = .ok (mapOfList ImageBin.id imgs) ∧
    readPoints3DBinary (encodePoints pts) = .ok (mapOfList PointBin.id pts) := by
  refine ⟨?_, readImagesBinary_encode imgs hi hin,
    readPoints3DBinary_encode pts hp hpn⟩
  rw [readCamerasBinary_encode cams hc hcn,
    if_pos (mapOfList_length_nodup CameraBin.id cams hcd)]

set_option maxRecDepth 40000 in
/-- C1 (witness): the amended round trip at concrete records featuring a -1
sentinel `point3D_id`, a zero-length track, and an empty image name. -/
theorem claim_C1_witness :
    readCamerasBinary (encodeCameras
      [⟨1, "PINHOLE", 1920, 1080, [10, 11, 12, 13]⟩]) =
      .ok (mapOfList CameraBin.id [⟨1, "PINHOLE", 1920, 1080, [10, 11, 12, 13]⟩]) ∧
    readImagesBinary (encodeImages
      [⟨7, 1, [], (1, 2, 3, 4), (5, 6, 7), [(100, 101)], [-1]⟩]) =
      .ok (mapOfList ImageBin.id
        [⟨7, 1, [], (1, 2, 3, 4), (5, 6, 7), [(100, 101)], [-1]⟩]) ∧
    readPoints3DBinary (encodePoints
      [⟨3, (1, 2, 3), (10, 20, 30), 9, [], []⟩]) =
      .ok (mapOfList PointBin.id [⟨3, (1, 2, 3), (10, 20, 30), 9, [], []⟩]) :=
  claim_C1_roundtrip
    [⟨1, "PINHOLE", 1920, 1080, [10, 11, 12, 13]⟩]
    [⟨7, 1, [], (1, 2, 3, 4), (5, 6, 7), [(100, 101)], [-1]⟩]
    [⟨3, (1, 2, 3), (10, 20, 30), 9, [], []⟩]
    (by decide) (by decide) (by decide) (by decide) (by decide) (by decide) (by decide)

/-! ## Claim C10: duplicate image ids decode fine, later record wins -/

/-- C10: `readImagesBinary` has no count check, so every well-formed image
list — duplicate ids included — decodes successfully to the id-keyed
mapping, and looking up any id in that mapping yields the **last** record
of the buffer with that id (`find?` over the reversed list). -/
theorem claim_C10_images_duplicates (recs : List ImageBin)
    (hWF : ∀ r ∈ recs, WFImage r) (hn : recs.length < 2 ^ 64) :
    readImagesBinary (encodeImages recs) = .ok (mapOfList ImageBin.id recs) ∧
    ∀ k, lookupKV (mapOfList ImageBin.id recs) k =
      recs.reverse.find? (fun r => r.id = k) :=
  ⟨readImagesBinary_encode recs hWF hn,
   fun k => lookupKV_mapOfList ImageBin.id recs k⟩

set_option maxRecDepth 40000 in
/-- C10 (witness): two image records with the same id 7 decode without
error, and the mapping holds the second record. -/
theorem claim_C10_witness :
    readImagesBinary (encodeImages
      [⟨7, 1, [65], (1, 2, 3, 4), (5, 6, 7), [], []⟩,
       ⟨7, 2, [66], (8, 9, 10, 11), (12, 13, 14), [], []⟩]) =
      .ok (mapOfList ImageBin.id
        [⟨7, 1, [65], (1, 2, 3, 4), (5, 6, 7), [], []⟩,
         ⟨7, 2, [66], (8, 9, 10, 11), (12, 13, 14), [], []⟩]) ∧
    lookupKV (mapOfList ImageBin.id
      [⟨7, 1, [65], (1, 2, 3, 4), (5, 6, 7), [], []⟩,
       ⟨7, 2, [66], (8, 9, 10, 11), (12, 13, 14), [], []⟩]) 7 =
      some ⟨7, 2, [66], (8, 9, 10, 11), (12, 13, 14), [], []⟩ := by
  refine ⟨(claim_C10_images_duplicates _ (by decide) (by decide)).1, ?_⟩
  rw [(claim_C10_images_duplicates
    [⟨7, 1, [65], (1, 2, 3, 4), (5, 6, 7), [], []⟩,
     ⟨7, 2, [66], (8, 9, 10, 11), (12, 13, 14), [], []⟩]
    (by decide) (by decide)).2 7]
  decide

/-! ## Claim C4: the camera count check -/

/-- C4: whenever the header count and the record loop both succeed,
`readCamerasBinary` returns the mapping exactly when the number of decoded
entries (`Object.keys(...).length`) equals the declared `num_cameras`, and
throws the count-mismatch error otherwise; that error is distinct from the
truncation error. -/
theorem claim_C4_count_check (b : Bytes) (n : Nat) (m : List (Int × CameraBin))
    (o : Nat) (h0 : readU64 b 0 = .ok n)
    (h1 : readCamerasLoop b 8 n [] = .ok (m, o)) :
    (m.length = n → readCamerasBinary b = .ok m) ∧
    (m.length ≠ n → readCamerasBinary b = .error .countMismatch) ∧
    DErr.countMismatch ≠ DErr.truncated := by
  refine ⟨?_, ?_, by decide⟩ <;> intro h <;> simp [readCamerasBinary, h0, h1, h]

set_option maxRecDepth 40000 in
/-- C4 (witness): a well-formed one-camera buffer has matching count and
decodes; its header/loop facts are discharged by evaluation. -/
theorem claim_C4_witness :
    readU64 (encodeCameras [⟨1, "PINHOLE", 1920, 1080, [10, 11, 12, 13]⟩]) 0 =
      .ok 1 ∧
    readCamerasBinary (encodeCameras [⟨1, "PINHOLE", 1920, 1080, [10, 11, 12, 13]⟩]) =
      .ok [(1, ⟨1, "PINHOLE", 1920, 1080, [10, 11, 12, 13]⟩)] :=
  ⟨by decide,
   (claim_C4_count_check (encodeCameras [⟨1, "PINHOLE", 1920, 1080, [10, 11, 12, 13]⟩])
     1 [(1, ⟨1, "PINHOLE", 1920, 1080, [10, 11, 12, 13]⟩)] 64
     (by decide) (by decide)).1 (by decide)⟩

/-! ## Claim C5: duplicate camera ids -/

set_option maxRecDepth 40000 in
/-- C5 (counterexample): two records with the same camera id do **not**
decode to a last-write-wins mapping - the count check sees 1 key against
`num_cameras = 2` and throws the count-mismatch error. -/
theorem claim_C5_counterexample :
    readCamerasBinary (encodeCameras
      [⟨5, "SIMPLE_PINHOLE", 100, 200, [1, 2, 3]⟩,
       ⟨5, "SIMPLE_PINHOLE", 300, 400, [4, 5, 6]⟩]) = .error .countMismatch := by
  decide

/-- C5 (amended): for every well-formed camera list containing duplicate
ids, the mapping assembled by last-write-wins insertion has fewer keys than
`num_cameras`, so `readCamerasBinary` raises the count-mismatch error
rather than succeeding. -/
theorem claim_C5_duplicates_mismatch (recs : List CameraBin)
    (hWF : ∀ c ∈ recs, WFCamera c) (hn : recs.length < 2 ^ 64)
    (hdup : ¬ (recs.map CameraBin.id).Nodup) :
    readCamerasBinary (encodeCameras recs) = .error .countMismatch := by
  rw [readCamerasBinary_encode recs hWF hn,
    if_neg (Nat.ne_of_lt (mapOfList_length_dup CameraBin.id recs hdup))]

set_option maxRecDepth 40000 in
/-- C5 (witness): the amended statement at a concrete duplicated pair. -/
theorem claim_C5_witness :
    readCamerasBinary (encodeCameras
      [⟨2, "SIMPLE_PINHOLE", 10, 20, [1, 2, 3]⟩,
       ⟨2, "SIMPLE_PINHOLE", 30, 40, [4, 5, 6]⟩]) = .error .countMismatch :=
  claim_C5_duplicates_mismatch
    [⟨2, "SIMPLE_PINHOLE", 10, 20, [1, 2, 3]⟩,
     ⟨2, "SIMPLE_PINHOLE", 30, 40, [4, 5, 6]⟩]
    (by decide) (by decide) (by decide)

/-! ## Claim C3: unknown camera model -/

/-- C3: a cameras buffer whose records are well formed up to some point and
then carry a `model_id` outside the registry (999, or any id the registry
does not know - `lookupModelId` returns `none` exactly then, it never
defaults) makes `readCamerasBinary` fail with the unknown-model error and
return no mapping, whatever bytes follow the bad record's header. -/
theorem claim_C3_unknown_model (good : List CameraBin) (cid mid w h : Int)
    (ps tl : Bytes) (k : Nat)
    (hWF : ∀ c ∈ good, WFCamera c)
    (hcount : good.length + 1 + k < 2 ^ 64)
    (hcid : inI32 cid) (hmid : inI32 mid)
    (hw : -(2 ^ 63) ≤ w ∧ w < 2 ^ 63) (hh : -(2 ^ 63) ≤ h ∧ h < 2 ^ 63)
    (hunknown : lookupModelId mid = none) :
    readCamerasBinary (encU64 (good.length + 1 + k) ++
        ((good.map encodeCameraRecord).flatten ++ (encodeCameraRaw cid mid w h ps ++ tl)))
      = .error .unknownModel := by
  set b := encU64 (good.length + 1 + k) ++
    ((good.map encodeCameraRecord).flatten ++ (encodeCameraRaw cid mid w h ps ++ tl))
    with hbdef
  have h0 : readU64 b 0 = .ok (good.length + 1 + k) :=
    readU64_at [] ((good.map encodeCameraRecord).flatten ++
      (encodeCameraRaw cid mid w h ps ++ tl)) (good.length + 1 + k)
      (by simp [hbdef]) rfl hcount
  have hsplit := readCamerasLoop_split (b := b) good (encU64 (good.length + 1 + k))
    (encodeCameraRaw cid mid w h ps ++ tl) 8 (1 + k) []
    (by simp [hbdef, List.append_assoc]) (by simp [encU64_length]) hWF
  have hoffbad : 8 + ((good.map encodeCameraRecord).flatten).length =
      (encU64 (good.length + 1 + k) ++ (good.map encodeCameraRecord).flatten).length := by
    simp [encU64_length]
  have hr1 : readI32 b (8 + ((good.map encodeCameraRecord).flatten).length) = .ok cid :=
    readI32_at (encU64 (good.length + 1 + k) ++ (good.map encodeCameraRecord).flatten)
      (encI32 mid ++ (encI64 w ++ (encI64 h ++ (ps ++ tl)))) cid
      (by simp [hbdef, encodeCameraRaw, List.append_assoc]) hoffbad hcid
  have hr2 : readI32 b (8 + ((good.map encodeCameraRecord).flatten).length + 4) =
      .ok mid :=
    readI32_at (encU64 (good.length + 1 + k) ++ (good.map encodeCameraRecord).flatten ++
      encI32 cid) (encI64 w ++ (encI64 h ++ (ps ++ tl))) mid
      (by simp [hbdef, encodeCameraRaw, List.append_assoc])
      (by simp [encU64_length, encI32_length]; omega) hmid
  have hr3 : readI64 b (8 + ((good.map encodeCameraRecord).flatten).length + 8) =
      .ok w :=
    readI64_at (encU64 (good.length + 1 + k) ++ (good.map encodeCameraRecord).flatten ++
      encI32 cid ++ encI32 mid) (encI64 h ++ (ps ++ tl)) w
      (by simp [hbdef, encodeCameraRaw, List.append_assoc])
      (by simp [encU64_length, encI32_length]; omega) hw
  have hr4 : readI64 b (8 + ((good.map encodeCameraRecord).flatten).length + 16) =
      .ok h :=
    readI64_at (encU64 (good.length + 1 + k) ++ (good.map encodeCameraRecord).flatten ++
      encI32 cid ++ encI32 mid ++ encI64 w) (ps ++ tl) h
      (by simp [hbdef, encodeCameraRaw, List.append_assoc])
      (by simp [encU64_length, encI32_length, encI64_length]; omega) hh
  have hbad : readCameraRecord b (8 + ((good.map encodeCameraRecord).flatten).length) =
      .error .unknownModel := by
    simp only [readCameraRecord, hr1, hr2, hr3, hr4, okBind, hunknown]
  have hloop : readCamerasLoop b 8 (good.length + 1 + k) [] = .error .unknownModel := by
    have hadd : good.length + 1 + k = good.length + (1 + k) := by omega
    rw [hadd, hsplit]
    have : (1 + k) = k + 1 := by omega
    rw [this]
    simp only [readCamerasLoop, hbad, errBind]
  simp only [readCamerasBinary, h0, okBind, hloop, errBind]

/-- C3 (witness): a PINHOLE record followed by a record with model id 999
aborts the decode with the unknown-model error. -/
theorem claim_C3_witness :
    readCamerasBinary (encU64 2 ++
        (([⟨1, "PINHOLE", 1920, 1080, [10, 11, 12, 13]⟩].map encodeCameraRecord).flatten ++
          (encodeCameraRaw 4 999 640 480 [] ++ []))) = .error .unknownModel :=
  claim_C3_unknown_model [⟨1, "PINHOLE", 1920, 1080, [10, 11, 12, 13]⟩] 4 999 640 480
    [] [] 0 (by decide) (by decide) (by decide) (by decide) (by decide) (by decide)
    (by decide)

/-! ## Claim C6: the name scan -/

theorem scanName_none (l : Bytes) (h : 0 ∉ l) : scanName l = none := by
  induction l with
  | nil => rfl
  | cons c rest ih =>
    have hc : c ≠ 0 := fun he => h (by simp [he])
    rw [scanName, if_neg hc, ih (fun hm => h (by simp [hm]))]

theorem scanName_some (l : Bytes) (h : 0 ∈ l) :
    scanName l = some (l.takeWhile (fun c => c != 0),
      (l.takeWhile (fun c => c != 0)).length + 1) := by
  induction l with
  | nil => simp at h
  | cons c rest ih =>
    by_cases hc : c = 0
    · subst hc
      simp [scanName, List.takeWhile]
    · have hrest : 0 ∈ rest := by
        rcases List.mem_cons.mp h with heq | hm
        · exact absurd heq.symm hc
        · exact hm
      rw [scanName, if_neg hc, ih hrest]
      have hcb : (c != 0) = true := by simpa using hc
      simp [List.takeWhile, hcb]

/-- C6: the byte-by-byte name scan of `readImagesBinary` always terminates -
the model is a total function - and behaves dichotomously: if a zero byte
occurs at or after the scan start, the scan returns exactly the bytes
before the first zero byte (terminator consumed, not included, the
returned offset is one past it); if the buffer is exhausted before any
zero byte, it fails with the truncation error instead of looping. -/
theorem claim_C6_name_scan (b : Bytes) (off : Nat) :
    (0 ∈ b.drop off →
      readName b off = .ok ((b.drop off).takeWhile (fun c => c != 0),
        off + ((b.drop off).takeWhile (fun c => c != 0)).length + 1)) ∧
    (0 ∉ b.drop off → readName b off = .error .truncated) := by
  constructor
  · intro h
    rw [readName, scanName_some (b.drop off) h]
    have : off + ((b.drop off).takeWhile (fun c => c != 0)).length + 1 =
        off + (((b.drop off).takeWhile (fun c => c != 0)).length + 1) := by omega
    rw [this]
  · intro h
    rw [readName, scanName_none (b.drop off) h]

/-- C6 (witness): on `[65, 66, 0, 9]` the scan stops at the zero and
returns name `[65, 66]` with the offset placed past the terminator; on
`[65, 66]` (no zero byte anywhere) it fails with truncation. -/
theorem claim_C6_witness :
    readName [65, 66, 0, 9] 0 = .ok ([65, 66], 3) ∧
    readName [65, 66] 0 = .error .truncated := by
  constructor
  · have h := (claim_C6_name_scan [65, 66, 0, 9] 0).1 (by decide)
    rw [h]
    decide
  · exact (claim_C6_name_scan [65, 66] 0).2 (by decide)

/-! ## Claim C8: the track invariant -/

theorem readTrack_lengths (b : Bytes) (n : Nat) :
    ∀ (off : Nat) (ids idxs : List Int) (o : Nat),
      readTrack b off n = .ok (ids, idxs, o) →
        ids.length = n ∧ idxs.length = n := by
  induction n with
  | zero =>
    intro off ids idxs o h
    simp only [readTrack, Except.ok.injEq, Prod.mk.injEq] at h
    obtain ⟨h1, h2, _⟩ := h
    simp [← h1, ← h2]
  | succ k ih =>
    intro off ids idxs o h
    simp only [readTrack] at h
    cases h1 : readI32 b off with
    | error e => rw [h1] at h; simp at h
    | ok iid =>
      rw [h1] at h
      cases h2 : readI32 b (off + 4) with
      | error e => rw [h2] at h; simp at h
      | ok idx =>
        rw [h2] at h
        cases h3 : readTrack b (off + 8) k with
        | error e => rw [h3] at h; simp at h
        | ok t =>
          obtain ⟨ids', idxs', o'⟩ := t
          rw [h3] at h
          simp only [okBind, Except.ok.injEq, Prod.mk.injEq] at h
          obtain ⟨ha, hb', _⟩ := h
          obtain ⟨hl1, hl2⟩ := ih (off + 8) ids' idxs' o' h3
          simp [← ha, ← hb', hl1, hl2]

theorem mem_insertKV {κ α : Type} [DecidableEq κ] (m : List (κ × α)) (k : κ) (v : α)
    (kv : κ × α) (h : kv ∈ insertKV m k v) : kv ∈ m ∨ kv = (k, v) := by
  unfold insertKV at h
  split at h
  · obtain ⟨p, hp, hpe⟩ := List.mem_map.mp h
    by_cases hpk : p.1 = k
    · rw [if_pos hpk] at hpe
      exact Or.inr hpe.symm
    · rw [if_neg hpk] at hpe
      exact Or.inl (hpe ▸ hp)
  · rcases List.mem_append.mp h with hm | hs
    · exact Or.inl hm
    · exact Or.inr (by simpa using hs)

theorem readPoint3DRecord_track (b : Bytes) (off : Nat) (p : PointBin) (o : Nat)
    (h : readPoint3DRecord b off = .ok (p, o)) :
    p.imageIds.length = p.point2DIdxs.length ∧
    readU64 b (off + 43) = .ok p.imageIds.length := by
  simp only [readPoint3DRecord] at h
  cases h1 : readU64 b off with
  | error e => rw [h1] at h; simp at h
  | ok pid =>
  rw [h1] at h
  cases h2 : readF64 b (off + 8) with
  | error e => rw [h2] at h; simp at h
  | ok x =>
  rw [h2] at h
  cases h3 : readF64 b (off + 16) with
  | error e => rw [h3] at h; simp at h
  | ok y =>
  rw [h3] at h
  cases h4 : readF64 b (off + 24) with
  | error e => rw [h4] at h; simp at h
  | ok z =>
  rw [h4] at h
  cases h5 : readU8 b (off + 32) with
  | error e => rw [h5] at h; simp at h
  | ok r =>
  rw [h5] at h
  cases h6 : readU8 b (off + 33) with
  | error e => rw [h6] at h; simp at h
  | ok g =>
  rw [h6] at h
  cases h7 : readU8 b (off + 34) with
  | error e => rw [h7] at h; simp at h
  | ok bb =>
  rw [h7] at h
  cases h8 : readF64 b (off + 35) with
  | error e => rw [h8] at h; simp at h
  | ok er =>
  rw [h8] at h
  cases h9 : readU64 b (off + 43) with
  | error e => rw [h9] at h; simp at h
  | ok tl =>
  rw [h9] at h
  simp only [okBind] at h
  cases h10 : readTrack b (off + 51) tl with
  | error e => rw [h10] at h; simp at h
  | ok t =>
  obtain ⟨ids, idxs, o'⟩ := t
  rw [h10] at h
  simp only [okBind, Except.ok.injEq, Prod.mk.injEq] at h
  obtain ⟨hp, -⟩ := h
  obtain ⟨hl1, hl2⟩ := readTrack_lengths b tl (off + 51) ids idxs o' h10
  subst hp
  refine ⟨?_, ?_⟩
  · show ids.length = idxs.length
    rw [hl1, hl2]
  · show (Except.ok tl : Except DErr Nat) = Except.ok ids.length
    rw [hl1]

theorem readPointsLoop_invariant (b : Bytes) (n : Nat) :
    ∀ (off : Nat) (acc m : List (Nat × PointBin)) (o : Nat),
      readPointsLoop b off n acc = .ok (m, o) →
      (∀ kv ∈ acc, kv.2.imageIds.length = kv.2.point2DIdxs.length) →
      ∀ kv ∈ m, kv.2.imageIds.length = kv.2.point2DIdxs.length := by
  induction n with
  | zero =>
    intro off acc m o h hacc
    simp only [readPointsLoop, Except.ok.injEq, Prod.mk.injEq] at h
    exact h.1 ▸ hacc
  | succ k ih =>
    intro off acc m o h hacc
    simp only [readPointsLoop] at h
    cases h1 : readPoint3DRecord b off with
    | error e => rw [h1] at h; simp at h
    | ok po =>
      obtain ⟨p, off'⟩ := po
      rw [h1] at h
      simp only [okBind] at h
      refine ih off' (insertKV acc p.id p) m o h ?_
      intro kv hkv
      rcases mem_insertKV acc p.id p kv hkv with hm | he
      · exact hacc kv hm
      · rw [he]
        exact (readPoint3DRecord_track b off p off' h1).1

/-- C8: every record produced by the 3D-point decoder satisfies the track
invariant: `imageIds` and `point2DIdxs` have equal length, that length is
exactly the `track_length` field read at byte 43 of the record, and a
`track_length` of zero yields two empty arrays rather than an error;
consequently every value of a successfully decoded points mapping has
parallel track arrays. -/
theorem claim_C8_track_invariant :
    (∀ (b : Bytes) (off : Nat) (p : PointBin) (o : Nat),
      readPoint3DRecord b off = .ok (p, o) →
        p.imageIds.length = p.point2DIdxs.length ∧
        readU64 b (off + 43) = .ok p.imageIds.length ∧
        (readU64 b (off + 43) = .ok 0 → p.imageIds = [] ∧ p.point2DIdxs = [])) ∧
    (∀ (b : Bytes) (m : List (Nat × PointBin)), readPoints3DBinary b = .ok m →
      ∀ kv ∈ m, kv.2.imageIds.length = kv.2.point2DIdxs.length) := by
  constructor
  · intro b off p o h
    obtain ⟨hl, htl⟩ := readPoint3DRecord_track b off p o h
    refine ⟨hl, htl, fun h0 => ?_⟩
    rw [htl] at h0
    simp only [Except.ok.injEq] at h0
    have h1 : p.imageIds = [] := List.length_eq_zero.mp h0
    have h2 : p.point2DIdxs = [] := List.length_eq_zero.mp (by rw [← hl, h0])
    exact ⟨h1, h2⟩
  · intro b m h kv hkv
    simp only [readPoints3DBinary] at h
    cases h1 : readU64 b 0 with
    | error e => rw [h1] at h; simp at h
    | ok n =>
      rw [h1] at h
      simp only [okBind] at h
      cases h2 : readPointsLoop b 8 n [] with
      | error e => rw [h2] at h; simp at h
      | ok mo =>
        obtain ⟨m', o⟩ := mo
        rw [h2] at h
        simp only [okBind, Except.ok.injEq] at h
        exact readPointsLoop_invariant b n 8 [] m' o h2 (by simp) kv (h ▸ hkv)

set_option maxRecDepth 40000 in
/-- C8 (witness): a concrete zero-track record decodes with empty parallel
arrays, and the decoded one-point mapping satisfies the invariant. -/
theorem claim_C8_witness :
    readPoint3DRecord (encodePoints [⟨3, (1, 2, 3), (10, 20, 30), 9, [], []⟩]) 8 =
      .ok (⟨3, (1, 2, 3), (10, 20, 30), 9, [], []⟩, 59) ∧
    ([] : List Int).length = ([] : List Int).length ∧
    readU64 (encodePoints [⟨3, (1, 2, 3), (10, 20, 30), 9, [], []⟩]) (8 + 43) =
      .ok 0 ∧
    (⟨3, (1, 2, 3), (10, 20, 30), 9, [], []⟩ : PointBin).imageIds = [] := by
  refine ⟨by decide, ?_, by decide, ?_⟩
  · exact ((claim_C8_track_invariant.1
      (encodePoints [⟨3, (1, 2, 3), (10, 20, 30), 9, [], []⟩]) 8
      ⟨3, (1, 2, 3), (10, 20, 30), 9, [], []⟩ 59 (by decide)).1)
  · exact ((claim_C8_track_invariant.1
      (encodePoints [⟨3, (1, 2, 3), (10, 20, 30), 9, [], []⟩]) 8
      ⟨3, (1, 2, 3), (10, 20, 30), 9, [], []⟩ 59 (by decide)).2.2 (by decide)).1

/-! ## Claim C7: derived camera poses -/

/-- C7: for every image, the pose computed by the `getCameraPoses` body is
exactly the spec's camera-to-world inversion: the orientation carried by
`RMatrix` is the transpose of the rotation matrix `R` built from the
`(w,x,y,z)` quaternion, and the position - computed in the source as
`t.applyMatrix4(RMatrix); t.negate()` - equals `-R_transpose * tvec` as a
matrix-vector product; in particular `qvec = [1,0,0,0]`, `tvec = [0,0,0]`
yields position `(0,0,0)` and the identity orientation.  (The computation
is pure: it only reads the image's fields, so the input record is not
mutated; the source's final `setFromRotationMatrix` re-packages the same
`RMatrix` as a quaternion.) -/
theorem claim_C7_pose (img : ImageQ) :
    (poseOf img).2 = (rotFromQuatSpec img.qvec).transpose ∧
    (poseOf img).1 = (fun i =>
      -(Matrix.mulVec (rotFromQuatSpec img.qvec).transpose
          ![img.tvec.1, img.tvec.2.1, img.tvec.2.2] i)) ∧
    poseOf ⟨0, (1, 0, 0, 0), (0, 0, 0)⟩ = (![0, 0, 0], (1 : Mat3)) := by
  refine ⟨?_, ?_, ?_⟩
  · ext i j
    fin_cases i <;> fin_cases j <;>
      simp [poseOf, upper3, rotM4, rotFromQuatSpec, Matrix.transpose_apply] <;> ring
  · funext i
    fin_cases i <;>
      simp [poseOf, negateV, applyMatrix4, rotM4, rotFromQuatSpec,
        Matrix.mulVec, Matrix.dotProduct, Fin.sum_univ_three,
        Matrix.transpose_apply] <;> ring
  · refine Prod.ext ?_ ?_
    · funext i
      fin_cases i <;>
        norm_num [poseOf, negateV, applyMatrix4, rotM4, Matrix.transpose_apply,
          Matrix.vecHead, Matrix.vecTail]
    · ext i j
      fin_cases i <;> fin_cases j <;>
        norm_num [poseOf, upper3, rotM4, Matrix.transpose_apply, Matrix.one_apply,
          Matrix.vecHead, Matrix.vecTail, Fin.ext_iff]

/-! ## Claim C9: `createCameraMesh` model gate -/

/-- C9: `createCameraMesh` computes `fx, fy, cx, cy` from the params
sequence without error for every model name of its pinhole family (shared
focal for `SIMPLE_PINHOLE`/`SIMPLE_RADIAL`/`RADIAL`, split focal for
`PINHOLE`/`OPENCV`/`OPENCV_FISHEYE`/`FULL_OPENCV`), and fails with the
capability error - building no geometry - for every other model name. -/
theorem claim_C9_camera_mesh (camera : CameraBin) :
    (camera.model ∈ simpleFocalModels →
      createCameraMesh camera = .ok (camera.params.get? 0, camera.params.get? 0,
        camera.params.get? 1, camera.params.get? 2)) ∧
    (camera.model ∈ splitFocalModels →
      createCameraMesh camera = .ok (camera.params.get? 0, camera.params.get? 1,
        camera.params.get? 2, camera.params.get? 3)) ∧
    (camera.model ∉ simpleFocalModels → camera.model ∉ splitFocalModels →
      createCameraMesh camera = .error .unsupportedModel) := by
  refine ⟨?_, ?_, ?_⟩
  · intro h1
    simp [createCameraMesh, h1]
  · intro h2
    have hnot : camera.model ∉ simpleFocalModels := by
      intro h1
      simp only [simpleFocalModels, List.mem_cons, List.not_mem_nil, or_false] at h1
      simp only [splitFocalModels, List.mem_cons, List.not_mem_nil, or_false] at h2
      rcases h1 with h1 | h1 | h1 <;> rw [h1] at h2 <;> simp at h2
    simp [createCameraMesh, hnot, h2]
  · intro h1 h2
    simp [createCameraMesh, h1, h2]

/-- C9 (witness): `FOV` (a registry model outside the pinhole family) is
rejected with the capability error; `PINHOLE` and `SIMPLE_RADIAL` produce
their intrinsics from the expected params slots. -/
theorem claim_C9_witness :
    createCameraMesh ⟨1, "FOV", 10, 10, [1, 2, 3, 4, 5]⟩ =
      .error .unsupportedModel ∧
    createCameraMesh ⟨2, "PINHOLE", 10, 10, [100, 200, 300, 400]⟩ =
      .ok (some 100, some 200, some 300, some 400) ∧
    createCameraMesh ⟨3, "SIMPLE_RADIAL", 10, 10, [7, 8, 9, 11]⟩ =
      .ok (some 7, some 7, some 8, some 9) := by
  refine ⟨?_, ?_, ?_⟩
  · exact (claim_C9_camera_mesh ⟨1, "FOV", 10, 10, [1, 2, 3, 4, 5]⟩).2.2
      (by decide) (by decide)
  · rw [(claim_C9_camera_mesh ⟨2, "PINHOLE", 10, 10, [100, 200, 300, 400]⟩).2.1
      (by decide)]
    decide
  · rw [(claim_C9_camera_mesh ⟨3, "SIMPLE_RADIAL", 10, 10, [7, 8, 9, 11]⟩).1
      (by decide)]
    decide

/-! ## Claim C2: decoding a truncated buffer

The lemmas below transport every successful read on the full buffer to the
truncated buffer: a bounds-checked read on a prefix either returns the very
same value (when it fits inside the prefix) or fails with the truncation
error - never a different value, because the prefix agrees with the full
buffer byte for byte. -/

theorem readLE_take_full {b : Bytes} {k off w : Nat} {v : Nat}
    (h : readLE b off w = .ok v) :
    (readLE (b.take k) off w = .ok v ∧ off + w ≤ k) ∨
    readLE (b.take k) off w = .error .truncated := by
  unfold readLE at h ⊢
  split at h
  · rename_i hin
    simp only [Except.ok.injEq] at h
    by_cases hk : off + w ≤ k
    · left
      rw [if_pos (by simp [List.length_take]; omega)]
      refine ⟨?_, hk⟩
      rw [← h]
      congr 1
      rw [List.drop_take, List.take_take, min_eq_left (by omega)]
    · right
      rw [if_neg (by simp [List.length_take]; omega)]
  · simp at h

theorem readU64_take_full {b : Bytes} {k off : Nat} {v : Nat}
    (h : readU64 b off = .ok v) :
    (readU64 (b.take k) off = .ok v ∧ off + 8 ≤ k) ∨
    readU64 (b.take k) off = .error .truncated :=
  readLE_take_full h

theorem readF64_take_full {b : Bytes} {k off : Nat} {v : Nat}
    (h : readF64 b off = .ok v) :
    (readF64 (b.take k) off = .ok v ∧ off + 8 ≤ k) ∨
    readF64 (b.take k) off = .error .truncated :=
  readLE_take_full h

theorem readU8_take_full {b : Bytes} {k off : Nat} {v : Nat}
    (h : readU8 b off = .ok v) :
    (readU8 (b.take k) off = .ok v ∧ off + 1 ≤ k) ∨
    readU8 (b.take k) off = .error .truncated :=
  readLE_take_full h

theorem readI32_take_full {b : Bytes} {k off : Nat} {v : Int}
    (h : readI32 b off = .ok v) :
    (readI32 (b.take k) off = .ok v ∧ off + 4 ≤ k) ∨
    readI32 (b.take k) off = .error .truncated := by
  unfold readI32 at h ⊢
  cases hle : readLE b off 4 with
  | error e => rw [hle] at h; simp [Except.map] at h
  | ok u =>
    rw [hle] at h
    simp only [Except.map, Except.ok.injEq] at h
    rcases readLE_take_full (k := k) hle with ⟨hp, hb⟩ | hp
    · left
      rw [hp]
      simp [Except.map, h, hb]
    · right
      rw [hp]
      rfl

theorem readI64_take_full {b : Bytes} {k off : Nat} {v : Int}
    (h : readI64 b off = .ok v) :
    (readI64 (b.take k) off = .ok v ∧ off + 8 ≤ k) ∨
    readI64 (b.take k) off = .error .truncated := by
  unfold readI64 at h ⊢
  cases hle : readLE b off 8 with
  | error e => rw [hle] at h; simp [Except.map] at h
  | ok u =>
    rw [hle] at h
    simp only [Except.map, Except.ok.injEq] at h
    rcases readLE_take_full (k := k) hle with ⟨hp, hb⟩ | hp
    · left
      rw [hp]
      simp [Except.map, h, hb]
    · right
      rw [hp]
      rfl

theorem scanName_pos {l : Bytes} {nm : List Nat} {used : Nat}
    (h : scanName l = some (nm, used)) : 1 ≤ used := by
  induction l generalizing nm used with
  | nil => simp [scanName] at h
  | cons c rest ih =>
    rw [scanName] at h
    split at h
    · simp at h
      omega
    · cases hr : scanName rest with
      | none => rw [hr] at h; simp at h
      | some p =>
        obtain ⟨nm', u'⟩ := p
        rw [hr] at h
        simp at h
        omega

theorem scanName_take_full {l : Bytes} {j : Nat} {nm : List Nat} {used : Nat}
    (h : scanName l = some (nm, used)) :
    (scanName (l.take j) = some (nm, used) ∧ used ≤ j) ∨
    scanName (l.take j) = none := by
  induction l generalizing j nm used with
  | nil => simp [scanName] at h
  | cons c rest ih =>
    cases j with
    | zero => right; simp [scanName]
    | succ j' =>
      rw [List.take_succ_cons]
      by_cases hc : c = 0
      · rw [scanName, if_pos hc] at h
        simp only [Option.some.injEq, Prod.mk.injEq] at h
        left
        rw [scanName, if_pos hc, ← h.1, ← h.2]
        exact ⟨rfl, by omega⟩
      · rw [scanName, if_neg hc] at h
        cases hr : scanName rest with
        | none => rw [hr] at h; simp at h
        | some p =>
          obtain ⟨nm', u'⟩ := p
          rw [hr] at h
          simp only [Option.some.injEq, Prod.mk.injEq] at h
          rcases ih (j := j') hr with ⟨hp, hb⟩ | hp
          · left
            rw [scanName, if_neg hc, hp]
            constructor
            · show some (c :: nm', u' + 1) = some (nm, used)
              rw [h.1, h.2]
            · omega
          · right
            rw [scanName, if_neg hc, hp]

theorem readName_take_full {b : Bytes} {k off : Nat} {nm : List Nat} {o : Nat}
    (h : readName b off = .ok (nm, o)) :
    (readName (b.take k) off = .ok (nm, o) ∧ o ≤ k) ∨
    readName (b.take k) off = .error .truncated := by
  unfold readName at h ⊢
  cases hs : scanName (b.drop off) with
  | none => rw [hs] at h; simp at h
  | some p =>
    obtain ⟨nm', used⟩ := p
    rw [hs] at h
    simp only [Except.ok.injEq, Prod.mk.injEq] at h
    have hdt : (b.take k).drop off = (b.drop off).take (k - off) := List.drop_take ..
    rcases scanName_take_full (j := k - off) hs with ⟨hp, hb⟩ | hp
    · left
      rw [hdt, hp]
      have hpos : 1 ≤ used := scanName_pos hs
      have hoffk : off ≤ k := by
        by_contra hgt
        push_neg at hgt
        have : k - off = 0 := by omega
        rw [this] at hp
        simp [scanName] at hp
      simp [h.1, ← h.2]
      omega
    · right
      rw [hdt, hp]

theorem readF64List_take_full {b : Bytes} {k : Nat} (n : Nat) :
    ∀ {off : Nat} {ps : List Nat},
      readF64List b off n = .ok ps →
      ((readF64List (b.take k) off n = .ok ps ∧ (n = 0 ∨ off + 8 * n ≤ k)) ∨
       readF64List (b.take k) off n = .error .truncated) := by
  induction n with
  | zero =>
    intro off ps h
    left
    simp only [readF64List] at h ⊢
    exact ⟨h, Or.inl trivial⟩
  | succ m ih =>
    intro off ps h
    simp only [readF64List] at h ⊢
    cases h1 : readF64 b off with
    | error e => rw [h1] at h; simp at h
    | ok p =>
      rw [h1] at h
      simp only [okBind] at h
      cases h2 : readF64List b (off + 8) m with
      | error e => rw [h2] at h; simp at h
      | ok rest =>
        rw [h2] at h
        simp only [okBind, Except.ok.injEq] at h
        rcases readF64_take_full (k := k) h1 with ⟨hp1, hb1⟩ | hp1
        · rcases ih h2 with ⟨hp2, hb2⟩ | hp2
          · left
            rw [hp1, okBind, hp2, okBind, h]
            refine ⟨rfl, Or.inr ?_⟩
            rcases hb2 with h0 | hbound
            · subst h0; omega
            · omega
          · right
            rw [hp1, okBind, hp2, errBind]
        · right
          rw [hp1, errBind]

theorem readPoints2DList_take_full {b : Bytes} {k : Nat} (n : Nat) :
    ∀ {off : Nat} {xys : List (Nat × Nat)} {pids : List Int} {o : Nat},
      readPoints2DList b off n = .ok (xys, pids, o) →
      ((readPoints2DList (b.take k) off n = .ok (xys, pids, o) ∧
          (n = 0 ∧ o = off ∨ o ≤ k)) ∨
       readPoints2DList (b.take k) off n = .error .truncated) := by
  induction n with
  | zero =>
    intro off xys pids o h
    left
    simp only [readPoints2DList, Except.ok.injEq, Prod.mk.injEq] at h ⊢
    exact ⟨h, Or.inl ⟨trivial, h.2.2.symm⟩⟩
  | succ m ih =>
    intro off xys pids o h
    simp only [readPoints2DList] at h ⊢
    cases h1 : readF64 b off with
    | error e => rw [h1] at h; simp at h
    | ok x =>
      rw [h1] at h
      simp only [okBind] at h
      cases h2 : readF64 b (off + 8) with
      | error e => rw [h2] at h; simp at h
      | ok y =>
        rw [h2] at h
        simp only [okBind] at h
        cases h3 : readI64 b (off + 16) with
        | error e => rw [h3] at h; simp at h
        | ok pid =>
          rw [h3] at h
          simp only [okBind] at h
          cases h4 : readPoints2DList b (off + 24) m with
          | error e => rw [h4] at h; simp at h
          | ok t =>
            obtain ⟨xys', pids', o'⟩ := t
            rw [h4] at h
            simp only [okBind, Except.ok.injEq, Prod.mk.injEq] at h
            rcases readF64_take_full (k := k) h1 with ⟨hp1, hb1⟩ | hp1
            · rcases readF64_take_full (k := k) h2 with ⟨hp2, hb2⟩ | hp2
              · rcases readI64_take_full (k := k) h3 with ⟨hp3, hb3⟩ | hp3
                · rcases ih h4 with ⟨hp4, hb4⟩ | hp4
                  · left
                    rw [hp1, okBind, hp2, okBind, hp3, okBind, hp4, okBind]
                    refine ⟨by rw [h.1, h.2.1, h.2.2], Or.inr ?_⟩
                    rcases hb4 with ⟨h0, ho⟩ | hbound
                    · omega
                    · omega
                  · right
                    rw [hp1, okBind, hp2, okBind, hp3, okBind, hp4, errBind]
                · right
                  rw [hp1, okBind, hp2, okBind, hp3, errBind]
              · right
                rw [hp1, okBind, hp2, errBind]
            · right
              rw [hp1, errBind]

theorem readTrack_take_full {b : Bytes} {k : Nat} (n : Nat) :
    ∀ {off : Nat} {ids idxs : List Int} {o : Nat},
      readTrack b off n = .ok (ids, idxs, o) →
      ((readTrack (b.take k) off n = .ok (ids, idxs, o) ∧
          (n = 0 ∧ o = off ∨ o ≤ k)) ∨
       readTrack (b.take k) off n = .error .truncated) := by
  induction n with
  | zero =>
    intro off ids idxs o h
    left
    simp only [readTrack, Except.ok.injEq, Prod.mk.injEq] at h ⊢
    exact ⟨h, Or.inl ⟨trivial, h.2.2.symm⟩⟩
  | succ m ih =>
    intro off ids idxs o h
    simp only [readTrack] at h ⊢
    cases h1 : readI32 b off with
    | error e => rw [h1] at h; simp at h
    | ok iid =>
      rw [h1] at h
      simp only [okBind] at h
      cases h2 : readI32 b (off + 4) with
      | error e => rw [h2] at h; simp at h
      | ok idx =>
        rw [h2] at h
        simp only [okBind] at h
        cases h3 : readTrack b (off + 8) m with
        | error e => rw [h3] at h; simp at h
        | ok t =>
          obtain ⟨ids', idxs', o'⟩ := t
          rw [h3] at h
          simp only [okBind, Except.ok.injEq, Prod.mk.injEq] at h
          rcases readI32_take_full (k := k) h1 with ⟨hp1, hb1⟩ | hp1
          · rcases readI32_take_full (k := k) h2 with ⟨hp2, hb2⟩ | hp2
            · rcases ih h3 with ⟨hp3, hb3⟩ | hp3
              · left
                rw [hp1, okBind, hp2, okBind, hp3, okBind]
                refine ⟨by rw [h.1, h.2.1, h.2.2], Or.inr ?_⟩
                rcases hb3 with ⟨h0, ho⟩ | hbound
                · omega
                · omega
              · right
                rw [hp1, okBind, hp2, okBind, hp3, errBind]
            · right
              rw [hp1, okBind, hp2, errBind]
          · right
            rw [hp1, errBind]

theorem readCameraRecord_take_full {b : Bytes} {k off : Nat} {c : CameraBin} {o : Nat}
    (h : readCameraRecord b off = .ok (c, o)) :
    (readCameraRecord (b.take k) off = .ok (c, o) ∧ o ≤ k) ∨
    readCameraRecord (b.take k) off = .error .truncated := by
  simp only [readCameraRecord] at h ⊢
  cases h1 : readI32 b off with
  | error e => rw [h1] at h; simp at h
  | ok cid =>
  rw [h1] at h
  simp only [okBind] at h
  cases h2 : readI32 b (off + 4) with
  | error e => rw [h2] at h; simp at h
  | ok mid =>
  rw [h2] at h
  simp only [okBind] at h
  cases h3 : readI64 b (off + 8) with
  | error e => rw [h3] at h; simp at h
  | ok w =>
  rw [h3] at h
  simp only [okBind] at h
  cases h4 : readI64 b (off + 16) with
  | error e => rw [h4] at h; simp at h
  | ok ht =>
  rw [h4] at h
  simp only [okBind] at h
  cases hlk : lookupModelId mid with
  | none => rw [hlk] at h; simp at h
  | some cm =>
  rw [hlk] at h
  simp only [okBind] at h
  cases h5 : readF64List b (off + 24) cm.num_params with
  | error e => rw [h5] at h; simp at h
  | ok ps =>
  rw [h5] at h
  simp only [okBind, Except.ok.injEq, Prod.mk.injEq] at h
  rcases readI32_take_full (k := k) h1 with ⟨hp1, hb1⟩ | hp1
  · rcases readI32_take_full (k := k) h2 with ⟨hp2, hb2⟩ | hp2
    · rcases readI64_take_full (k := k) h3 with ⟨hp3, hb3⟩ | hp3
      · rcases readI64_take_full (k := k) h4 with ⟨hp4, hb4⟩ | hp4
        · rcases readF64List_take_full (k := k) cm.num_params h5 with ⟨hp5, hb5⟩ | hp5
          · left
            constructor
            · simp only [hp1, okBind, hp2, okBind, hp3, okBind, hp4, okBind, hlk,
                hp5, okBind]
              rw [h.1, h.2]
            · rcases hb5 with h0 | hbound
              · rw [h0] at h
                omega
              · omega
          · right
            simp only [hp1, okBind, hp2, okBind, hp3, okBind, hp4, okBind, hlk,
              hp5, errBind]
        · right
          simp only [hp1, okBind, hp2, okBind, hp3, okBind, hp4, errBind]
      · right
        simp only [hp1, okBind, hp2, okBind, hp3, errBind]
    · right
      simp only [hp1, okBind, hp2, errBind]
  · right
    simp only [hp1, errBind]

theorem readPoint3DRecord_take_full {b : Bytes} {k off : Nat} {p : PointBin} {o : Nat}
    (h : readPoint3DRecord b off = .ok (p, o)) :
    (readPoint3DRecord (b.take k) off = .ok (p, o) ∧ o ≤ k) ∨
    readPoint3DRecord (b.take k) off = .error .truncated := by
  simp only [readPoint3DRecord] at h ⊢
  cases h1 : readU64 b off with
  | error e => rw [h1] at h; simp at h
  | ok pid =>
  rw [h1] at h
  simp only [okBind] at h
  cases h2 : readF64 b (off + 8) with
  | error e => rw [h2] at h; simp at h
  | ok x =>
  rw [h2] at h
  simp only [okBind] at h
  cases h3 : readF64 b (off + 16) with
  | error e => rw [h3] at h; simp at h
  | ok y =>
  rw [h3] at h
  simp only [okBind] at h
  cases h4 : readF64 b (off + 24) with
  | error e => rw [h4] at h; simp at h
  | ok z =>
  rw [h4] at h
  simp only [okBind] at h
  cases h5 : readU8 b (off + 32) with
  | error e => rw [h5] at h; simp at h
  | ok r =>
  rw [h5] at h
  simp only [okBind] at h
  cases h6 : readU8 b (off + 33) with
  | error e => rw [h6] at h; simp at h
  | ok g =>
  rw [h6] at h
  simp only [okBind] at h
  cases h7 : readU8 b (off + 34) with
  | error e => rw [h7] at h; simp at h
  | ok bb =>
  rw [h7] at h
  simp only [okBind] at h
  cases h8 : readF64 b (off + 35) with
  | error e => rw [h8] at h; simp at h
  | ok er =>
  rw [h8] at h
  simp only [okBind] at h
  cases h9 : readU64 b (off + 43) with
  | error e => rw [h9] at h; simp at h
  | ok tl =>
  rw [h9] at h
  simp only [okBind] at h
  cases h10 : readTrack b (off + 51) tl with
  | error e => rw [h10] at h; simp at h
  | ok t =>
  obtain ⟨ids, idxs, o'⟩ := t
  rw [h10] at h
  simp only [okBind, Except.ok.injEq, Prod.mk.injEq] at h
  rcases readU64_take_full (k := k) h1 with ⟨hp1, hb1⟩ | hp1
  · rcases readF64_take_full (k := k) h2 with ⟨hp2, hb2⟩ | hp2
    · rcases readF64_take_full (k := k) h3 with ⟨hp3, hb3⟩ | hp3
      · rcases readF64_take_full (k := k) h4 with ⟨hp4, hb4⟩ | hp4
        · rcases readU8_take_full (k := k) h5 with ⟨hp5, hb5⟩ | hp5
          · rcases readU8_take_full (k := k) h6 with ⟨hp6, hb6⟩ | hp6
            · rcases readU8_take_full (k := k) h7 with ⟨hp7, hb7⟩ | hp7
              · rcases readF64_take_full (k := k) h8 with ⟨hp8, hb8⟩ | hp8
                · rcases readU64_take_full (k := k) h9 with ⟨hp9, hb9⟩ | hp9
                  · rcases readTrack_take_full (k := k) tl h10 with ⟨hp10, hb10⟩ | hp10
                    · left
                      constructor
                      · simp only [hp1, okBind, hp2, okBind, hp3, okBind, hp4,
                          okBind, hp5, okBind, hp6, okBind, hp7, okBind, hp8,
                          okBind, hp9, okBind, hp10, okBind]
                        rw [h.1, h.2]
                      · rcases hb10 with ⟨h0, ho'⟩ | hbound
                        · omega
                        · omega
                    · right
                      simp only [hp1, okBind, hp2, okBind, hp3, okBind, hp4,
                        okBind, hp5, okBind, hp6, okBind, hp7, okBind, hp8,
                        okBind, hp9, okBind, hp10, errBind]
                  · right
                    simp only [hp1, okBind, hp2, okBind, hp3, okBind, hp4, okBind,
                      hp5, okBind, hp6, okBind, hp7, okBind, hp8, okBind, hp9,
                      errBind]
                · right
                  simp only [hp1, okBind, hp2, okBind, hp3, okBind, hp4, okBind,
                    hp5, okBind, hp6, okBind, hp7, okBind, hp8, errBind]
              · right
                simp only [hp1, okBind, hp2, okBind, hp3, okBind, hp4, okBind,
                  hp5, okBind, hp6, okBind, hp7, errBind]
            · right
              simp only [hp1, okBind, hp2, okBind, hp3, okBind, hp4, okBind, hp5,
                okBind, hp6, errBind]
          · right
            simp only [hp1, okBind, hp2, okBind, hp3, okBind, hp4, okBind, hp5,
              errBind]
        · right
          simp only [hp1, okBind, hp2, okBind, hp3, okBind, hp4, errBind]
      · right
        simp only [hp1, okBind, hp2, okBind, hp3, errBind]
    · right
      simp only [hp1, okBind, hp2, errBind]
  · right
    simp only [hp1, errBind]

theorem readImageRecord_take_full {b : Bytes} {k off : Nat} {img : ImageBin} {o : Nat}
    (h : readImageRecord b off = .ok (img, o)) :
    (readImageRecord (b.take k) off = .ok (img, o) ∧ o ≤ k) ∨
    readImageRecord (b.take k) off = .error .truncated := by
  simp only [readImageRecord] at h ⊢
  cases h1 : readI32 b off with
  | error e => rw [h1] at h; simp at h
  | ok iid =>
  rw [h1] at h
  simp only [okBind] at h
  cases h2 : readF64 b (off + 4) with
  | error e => rw [h2] at h; simp at h
  | ok qw =>
  rw [h2] at h
  simp only [okBind] at h
  cases h3 : readF64 b (off + 12) with
  | error e => rw [h3] at h; simp at h
  | ok qx =>
  rw [h3] at h
  simp only [okBind] at h
  cases h4 : readF64 b (off + 20) with
  | error e => rw [h4] at h; simp at h
  | ok qy =>
  rw [h4] at h
  simp only [okBind] at h
  cases h5 : readF64 b (off + 28) with
  | error e => rw [h5] at h; simp at h
  | ok qz =>
  rw [h5] at h
  simp only [okBind] at h
  cases h6 : readF64 b (off + 36) with
  | error e => rw [h6] at h; simp at h
  | ok tx =>
  rw [h6] at h
  simp only [okBind] at h
  cases h7 : readF64 b (off + 44) with
  | error e => rw [h7] at h; simp at h
  | ok ty =>
  rw [h7] at h
  simp only [okBind] at h
  cases h8 : readF64 b (off + 52) with
  | error e => rw [h8] at h; simp at h
  | ok tz =>
  rw [h8] at h
  simp only [okBind] at h
  cases h9 : readI32 b (off + 60) with
  | error e => rw [h9] at h; simp at h
  | ok cid =>
  rw [h9] at h
  simp only [okBind] at h
  cases h10 : readName b (off + 64) with
  | error e => rw [h10] at h; simp at h
  | ok pn =>
  obtain ⟨nm, o1⟩ := pn
  rw [h10] at h
  simp only [okBind] at h
  cases h11 : readU64 b o1 with
  | error e => rw [h11] at h; simp at h
  | ok np =>
  rw [h11] at h
  simp only [okBind] at h
  cases h12 : readPoints2DList b (o1 + 8) np with
  | error e => rw [h12] at h; simp at h
  | ok t =>
  obtain ⟨xys, pids, o2⟩ := t
  rw [h12] at h
  simp only [okBind, Except.ok.injEq, Prod.mk.injEq] at h
  rcases readI32_take_full (k := k) h1 with ⟨hp1, hb1⟩ | hp1
  · rcases readF64_take_full (k := k) h2 with ⟨hp2, hb2⟩ | hp2
    · rcases readF64_take_full (k := k) h3 with ⟨hp3, hb3⟩ | hp3
      · rcases readF64_take_full (k := k) h4 with ⟨hp4, hb4⟩ | hp4
        · rcases readF64_take_full (k := k) h5 with ⟨hp5, hb5⟩ | hp5
          · rcases readF64_take_full (k := k) h6 with ⟨hp6, hb6⟩ | hp6
            · rcases readF64_take_full (k := k) h7 with ⟨hp7, hb7⟩ | hp7
              · rcases readF64_take_full (k := k) h8 with ⟨hp8, hb8⟩ | hp8
                · rcases readI32_take_full (k := k) h9 with ⟨hp9, hb9⟩ | hp9
                  · rcases readName_take_full (k := k) h10 with ⟨hp10, hb10⟩ | hp10
                    · rcases readU64_take_full (k := k) h11 with ⟨hp11, hb11⟩ | hp11
                      · rcases readPoints2DList_take_full (k := k) np h12 with
                          ⟨hp12, hb12⟩ | hp12
                        · left
                          constructor
                          · simp only [hp1, okBind, hp2, okBind, hp3, okBind, hp4,
                              okBind, hp5, okBind, hp6, okBind, hp7, okBind, hp8,
                              okBind, hp9, okBind, hp10, okBind, hp11, okBind,
                              hp12, okBind]
                            rw [h.1, h.2]
                          · rcases hb12 with ⟨h0, ho2⟩ | hbound
                            · omega
                            · omega
                        · right
                          simp only [hp1, okBind, hp2, okBind, hp3, okBind, hp4,
                            okBind, hp5, okBind, hp6, okBind, hp7, okBind, hp8,
                            okBind, hp9, okBind, hp10, okBind, hp11, okBind, hp12,
                            errBind]
                      · right
                        simp only [hp1, okBind, hp2, okBind, hp3, okBind, hp4,
                          okBind, hp5, okBind, hp6, okBind, hp7, okBind, hp8,
                          okBind, hp9, okBind, hp10, okBind, hp11, errBind]
                    · right
                      simp only [hp1, okBind, hp2, okBind, hp3, okBind, hp4,
                        okBind, hp5, okBind, hp6, okBind, hp7, okBind, hp8,
                        okBind, hp9, okBind, hp10, errBind]
                  · right
                    simp only [hp1, okBind, hp2, okBind, hp3, okBind, hp4, okBind,
                      hp5, okBind, hp6, okBind, hp7, okBind, hp8, okBind, hp9,
                      errBind]
                · right
                  simp only [hp1, okBind, hp2, okBind, hp3, okBind, hp4, okBind,
                    hp5, okBind, hp6, okBind, hp7, okBind, hp8, errBind]
              · right
                simp only [hp1, okBind, hp2, okBind, hp3, okBind, hp4, okBind,
                  hp5, okBind, hp6, okBind, hp7, errBind]
            · right
              simp only [hp1, okBind, hp2, okBind, hp3, okBind, hp4, okBind, hp5,
                okBind, hp6, errBind]
          · right
            simp only [hp1, okBind, hp2, okBind, hp3, okBind, hp4, okBind, hp5,
              errBind]
        · right
          simp only [hp1, okBind, hp2, okBind, hp3, okBind, hp4, errBind]
      · right
        simp only [hp1, okBind, hp2, okBind, hp3, errBind]
    · right
      simp only [hp1, okBind, hp2, errBind]
  · right
    simp only [hp1, errBind]

theorem readCamerasLoop_take_full {b : Bytes} {k : Nat} (n : Nat) :
    ∀ {off : Nat} {acc m : List (Int × CameraBin)} {o : Nat},
      readCamerasLoop b off n acc = .ok (m, o) →
      ((readCamerasLoop (b.take k) off n acc = .ok (m, o) ∧
          (n = 0 ∧ o = off ∨ o ≤ k)) ∨
       readCamerasLoop (b.take k) off n acc = .error .truncated) := by
  induction n with
  | zero =>
    intro off acc m o h
    left
    simp only [readCamerasLoop, Except.ok.injEq, Prod.mk.injEq] at h ⊢
    exact ⟨h, Or.inl ⟨trivial, h.2.symm⟩⟩
  | succ nn ih =>
    intro off acc m o h
    simp only [readCamerasLoop] at h ⊢
    cases h1 : readCameraRecord b off with
    | error e => rw [h1] at h; simp at h
    | ok co =>
      obtain ⟨c, o'⟩ := co
      rw [h1] at h
      simp only [okBind] at h
      rcases readCameraRecord_take_full (k := k) h1 with ⟨hp1, hb1⟩ | hp1
      · rcases ih h with ⟨hp2, hb2⟩ | hp2
        · left
          refine ⟨by simp only [hp1, okBind, hp2], Or.inr ?_⟩
          rcases hb2 with ⟨h0, ho⟩ | hbound
          · omega
          · omega
        · right
          simp only [hp1, okBind, hp2]
      · right
        simp only [hp1, errBind]

theorem readImagesLoop_take_full {b : Bytes} {k : Nat} (n : Nat) :
    ∀ {off : Nat} {acc m : List (Int × ImageBin)} {o : Nat},
      readImagesLoop b off n acc = .ok (m, o) →
      ((readImagesLoop (b.take k) off n acc = .ok (m, o) ∧
          (n = 0 ∧ o = off ∨ o ≤ k)) ∨
       readImagesLoop (b.take k) off n acc = .error .truncated) := by
  induction n with
  | zero =>
    intro off acc m o h
    left
    simp only [readImagesLoop, Except.ok.injEq, Prod.mk.injEq] at h ⊢
    exact ⟨h, Or.inl ⟨trivial, h.2.symm⟩⟩
  | succ nn ih =>
    intro off acc m o h
    simp only [readImagesLoop] at h ⊢
    cases h1 : readImageRecord b off with
    | error e => rw [h1] at h; simp at h
    | ok co =>
      obtain ⟨r, o'⟩ := co
      rw [h1] at h
      simp only [okBind] at h
      rcases readImageRecord_take_full (k := k) h1 with ⟨hp1, hb1⟩ | hp1
      · rcases ih h with ⟨hp2, hb2⟩ | hp2
        · left
          refine ⟨by simp only [hp1, okBind, hp2], Or.inr ?_⟩
          rcases hb2 with ⟨h0, ho⟩ | hbound
          · omega
          · omega
        · right
          simp only [hp1, okBind, hp2]
      · right
        simp only [hp1, errBind]

theorem readPointsLoop_take_full {b : Bytes} {k : Nat} (n : Nat) :
    ∀ {off : Nat} {acc m : List (Nat × PointBin)} {o : Nat},
      readPointsLoop b off n acc = .ok (m, o) →
      ((readPointsLoop (b.take k) off n acc = .ok (m, o) ∧
          (n = 0 ∧ o = off ∨ o ≤ k)) ∨
       readPointsLoop (b.take k) off n acc = .error .truncated) := by
  induction n with
  | zero =>
    intro off acc m o h
    left
    simp only [readPointsLoop, Except.ok.injEq, Prod.mk.injEq] at h ⊢
    exact ⟨h, Or.inl ⟨trivial, h.2.symm⟩⟩
  | succ nn ih =>
    intro off acc m o h
    simp only [readPointsLoop] at h ⊢
    cases h1 : readPoint3DRecord b off with
    | error e => rw [h1] at h; simp at h
    | ok co =>
      obtain ⟨r, o'⟩ := co
      rw [h1] at h
      simp only [okBind] at h
      rcases readPoint3DRecord_take_full (k := k) h1 with ⟨hp1, hb1⟩ | hp1
      · rcases ih h with ⟨hp2, hb2⟩ | hp2
        · left
          refine ⟨by simp only [hp1, okBind, hp2], Or.inr ?_⟩
          rcases hb2 with ⟨h0, ho⟩ | hbound
          · omega
          · omega
        · right
          simp only [hp1, okBind, hp2]
      · right
        simp only [hp1, errBind]

/-- C2: truncating a well-formed encoded buffer (at least one record, so a
"last record" exists) at any byte offset strictly before its end makes each
decoder fail with the truncation error - never return a mapping with a
silently wrong record, and never complete a read past the buffer end with
an undefined or zero value, because every `DataView` read is
bounds-checked. -/
theorem claim_C2_truncation :
    (∀ recs : List CameraBin, (∀ c ∈ recs, WFCamera c) → recs ≠ [] →
      recs.length < 2 ^ 64 → ∀ j, j < (encodeCameras recs).length →
        readCamerasBinary ((encodeCameras recs).take j) = .error .truncated) ∧
    (∀ recs : List ImageBin, (∀ r ∈ recs, WFImage r) → recs ≠ [] →
      recs.length < 2 ^ 64 → ∀ j, j < (encodeImages recs).length →
        readImagesBinary ((encodeImages recs).take j) = .error .truncated) ∧
    (∀ recs : List PointBin, (∀ r ∈ recs, WFPoint r) → recs ≠ [] →
      recs.length < 2 ^ 64 → ∀ j, j < (encodePoints recs).length →
        readPoints3DBinary ((encodePoints recs).take j) = .error .truncated) := by
  refine ⟨?_, ?_, ?_⟩
  · intro recs hWF hne hn j hj
    have hfull0 : readU64 (encodeCameras recs) 0 = .ok recs.length :=
      readU64_at [] ((recs.map encodeCameraRecord).flatten) recs.length
        (by simp [encodeCameras]) rfl hn
    have hfullLoop := readCamerasLoop_at (b := encodeCameras recs) recs
      (encU64 recs.length) [] 8 []
      (by simp [encodeCameras]) (by simp [encU64_length]) hWF
    have hL : (encodeCameras recs).length =
        8 + ((recs.map encodeCameraRecord).flatten).length := by
      simp [encodeCameras, encU64_length]
    rcases readU64_take_full (k := j) hfull0 with ⟨hp0, hb0⟩ | hp0
    · rcases readCamerasLoop_take_full (k := j) recs.length hfullLoop with
        ⟨hp1, hb1⟩ | hp1
      · exfalso
        rcases hb1 with ⟨h0, _⟩ | hbound
        · exact hne (List.length_eq_zero.mp h0)
        · omega
      · simp only [readCamerasBinary, hp0, okBind, hp1, errBind]
    · simp only [readCamerasBinary, hp0, errBind]
  · intro recs hWF hne hn j hj
    have hfull0 : readU64 (encodeImages recs) 0 = .ok recs.length :=
      readU64_at [] ((recs.map encodeImageRecord).flatten) recs.length
        (by simp [encodeImages]) rfl hn
    have hfullLoop := readImagesLoop_at (b := encodeImages recs) recs
      (encU64 recs.length) [] 8 []
      (by simp [encodeImages]) (by simp [encU64_length]) hWF
    have hL : (encodeImages recs).length =
        8 + ((recs.map encodeImageRecord).flatten).length := by
      simp [encodeImages, encU64_length]
    rcases readU64_take_full (k := j) hfull0 with ⟨hp0, hb0⟩ | hp0
    · rcases readImagesLoop_take_full (k := j) recs.length hfullLoop with
        ⟨hp1, hb1⟩ | hp1
      · exfalso
        rcases hb1 with ⟨h0, _⟩ | hbound
        · exact hne (List.length_eq_zero.mp h0)
        · omega
      · simp only [readImagesBinary, hp0, okBind, hp1, errBind]
    · simp only [readImagesBinary, hp0, errBind]
  · intro recs hWF hne hn j hj
    have hfull0 : readU64 (encodePoints recs) 0 = .ok recs.length :=
      readU64_at [] ((recs.map encodePointRecord).flatten) recs.length
        (by simp [encodePoints]) rfl hn
    have hfullLoop := readPointsLoop_at (b := encodePoints recs) recs
      (encU64 recs.length) [] 8 []
      (by simp [encodePoints]) (by simp [encU64_length]) hWF
    have hL : (encodePoints recs).length =
        8 + ((recs.map encodePointRecord).flatten).length := by
      simp [encodePoints, encU64_length]
    rcases readU64_take_full (k := j) hfull0 with ⟨hp0, hb0⟩ | hp0
    · rcases readPointsLoop_take_full (k := j) recs.length hfullLoop with
        ⟨hp1, hb1⟩ | hp1
      · exfalso
        rcases hb1 with ⟨h0, _⟩ | hbound
        · exact hne (List.length_eq_zero.mp h0)
        · omega
      · simp only [readPoints3DBinary, hp0, okBind, hp1, errBind]
    · simp only [readPoints3DBinary, hp0, errBind]

set_option maxRecDepth 100000 in
/-- C2 (witness): concrete one-record buffers for the three decoders, each
truncated in the middle of the last record, all fail with truncation. -/
theorem claim_C2_witness :
    readCamerasBinary ((encodeCameras
      [⟨1, "PINHOLE", 1920, 1080, [10, 11, 12, 13]⟩]).take 30) =
      .error .truncated ∧
    readImagesBinary ((encodeImages
      [⟨7, 1, [65], (1, 2, 3, 4), (5, 6, 7), [(100, 101)], [-1]⟩]).take 80) =
      .error .truncated ∧
    readPoints3DBinary ((encodePoints
      [⟨3, (1, 2, 3), (10, 20, 30), 9, [1, 2], [0, 5]⟩]).take 50) =
      .error .truncated :=
  ⟨claim_C2_truncation.1 [⟨1, "PINHOLE", 1920, 1080, [10, 11, 12, 13]⟩]
     (by decide) (by decide) (by decide) 30 (by decide),
   claim_C2_truncation.2.1 [⟨7, 1, [65], (1, 2, 3, 4), (5, 6, 7), [(100, 101)], [-1]⟩]
     (by decide) (by decide) (by decide) 80 (by decide),
   claim_C2_truncation.2.2 [⟨3, (1, 2, 3), (10, 20, 30), 9, [1, 2], [0, 5]⟩]
     (by decide) (by decide) (by decide) 50 (by decide)⟩
